import Mathlib

/-!
Verification development for the family-finance import pipeline.

The definitions below are a shallow embedding of the Python source under
`backend/app`: parsers (`plugins/parsers/rocket_money.py`,
`plugins/parsers/schema_based.py`), the import reconciliation engine
(`services/import_service.py`), the categorization service
(`services/categorization_service.py`), the categorize background task
(`tasks/import_tasks.py`) and the upload route (`api/imports.py`).

Modelling conventions:
* SQLAlchemy rows become records; the database is a record of lists, with
  row identity modelled by a `Nat` id allocated from a counter (the source
  uses uuid4 defaults; only uniqueness matters).
* A SQLAlchemy session is a pair (committed DB, current DB).  Queries read
  the current DB (SQLAlchemy autoflush makes staged rows visible),
  `commit` copies current into committed, `rollback` restores current from
  committed.
* `scalar_one_or_none()` raises `MultipleResultsFound` when a query yields
  more than one row; lookups therefore return `Except` and error when the
  filtered list has two or more elements.
* Python exceptions become `Except String`; the carried string is the
  exception text (`str(exc)`).
* File bytes are modelled as decoded text (`String`); the source's
  utf-8-decode-failure branches are not reachable in this model.
* Python `date.fromisoformat` is modelled for the dashed `YYYY-MM-DD`
  form: a calendar-valid dashed date parses, everything else raises.
* Python `float`/`round` on decimal currency text is modelled by exact
  scaled-decimal arithmetic with round-half-to-even, which agrees with the
  IEEE double computation on the two-decimal currency strings at issue.
-/

namespace FamilyFinance

/-- Decidable equality for `Except`, used to evaluate concrete scenarios. -/
instance {ε α : Type} [DecidableEq ε] [DecidableEq α] : DecidableEq (Except ε α)
  | .error e, .error f =>
    if h : e = f then .isTrue (by rw [h]) else .isFalse (by intro hh; cases hh; exact h rfl)
  | .error _, .ok _ => .isFalse (by intro hh; cases hh)
  | .ok _, .error _ => .isFalse (by intro hh; cases hh)
  | .ok a, .ok b =>
    if h : a = b then .isTrue (by rw [h]) else .isFalse (by intro hh; cases hh; exact h rfl)

/-! ### Small string / numeric helpers -/

/-- Python `s[:1000]` (used for `error_message = str(exc)[:1000]`). -/
def truncate1000 (s : String) : String :=
  (s.toList.take 1000).asString

/-- Is `p` a prefix of `l`? -/
def prefixOfList : List Char → List Char → Bool
  | [], _ => true
  | _ :: _, [] => false
  | a :: as, b :: bs => a == b && prefixOfList as bs

/-- Is `needle` a contiguous sublist of `hay`?  Models Python `in` on `str`. -/
def subListOf (needle hay : List Char) : Bool :=
  if prefixOfList needle hay then true
  else
    match hay with
    | [] => false
    | _ :: t => subListOf needle t

/-- Python `needle in hay` for strings. -/
def strContains (hay needle : String) : Bool :=
  subListOf needle.toList hay.toList

/-- Python's ASCII whitespace (str.strip's default set, ASCII part). -/
def isPyWhitespace (c : Char) : Bool :=
  c == ' ' || c == '\t' || c == '\n' || c == '\r' || c == '\x0b' || c == '\x0c'

/-- Python `s.strip()`. -/
def pyStrip (s : String) : String :=
  (((s.toList.dropWhile isPyWhitespace).reverse.dropWhile isPyWhitespace).reverse).asString

/-- Python `s.lower()` (ASCII). -/
def pyLower (s : String) : String :=
  (s.toList.map Char.toLower).asString

/-- Python `s.split(sep)` for a one-character separator, on char lists. -/
def splitOnCharList (sep : Char) : List Char → List (List Char)
  | [] => [[]]
  | c :: cs =>
    match splitOnCharList sep cs with
    | [] => [[]]
    | g :: gs => if c == sep then [] :: g :: gs else (c :: g) :: gs

/-- Python `s.split(sep)` for a one-character separator. -/
def splitOnChar (sep : Char) (s : String) : List String :=
  (splitOnCharList sep s.toList).map List.asString

/-- Python `content.split(b"\n", 1)[0].decode().strip()`: the first line of
the file, stripped. -/
def firstLine (content : String) : String :=
  pyStrip (content.toList.takeWhile (fun c => c != '\n')).asString

/-- Python `"." + filename.rsplit(".", 1)[-1].lower() if "." in filename
else ""` from `SchemaBasedParser._check_rules`. -/
def fileExt (filename : String) : String :=
  if filename.toList.contains '.' then
    "." ++ pyLower ((splitOnChar '.' filename).getLastD "")
  else ""

/-! ### ISO dates (`datetime.date.fromisoformat`) -/

/-- Days in a month, with Gregorian leap years. -/
def daysInMonth (y m : Nat) : Nat :=
  if m == 2 then
    if (y % 4 == 0 && y % 100 != 0) || y % 400 == 0 then 29 else 28
  else if m == 1 || m == 3 || m == 5 || m == 7 || m == 8 || m == 10 || m == 12 then 31
  else 30

/-- Digit value of a char (caller guarantees `isDigit`). -/
def digitVal (c : Char) : Nat := c.toNat - 48

/-- Calendar validity of a dashed `YYYY-MM-DD` string. -/
def validIsoDate (s : String) : Bool :=
  match s.toList with
  | [y1, y2, y3, y4, s1, m1, m2, s2, d1, d2] =>
    s1 == '-' && s2 == '-' &&
    [y1, y2, y3, y4, m1, m2, d1, d2].all Char.isDigit &&
    (let y := 1000 * digitVal y1 + 100 * digitVal y2 + 10 * digitVal y3 + digitVal y4
     let m := 10 * digitVal m1 + digitVal m2
     let d := 10 * digitVal d1 + digitVal d2
     1 ≤ y && 1 ≤ m && m ≤ 12 && 1 ≤ d && d ≤ daysInMonth y m)
  | _ => false

/-- `date.fromisoformat(s)`: the parsed date is represented by its
canonical string; invalid input raises `ValueError`. -/
def parseIsoDate (s : String) : Except String String :=
  if validIsoDate s then .ok s
  else .error ("Invalid isoformat string: '" ++ s ++ "'")

/-! ### Decimal currency conversion (Python `float` + `round`)

`round(float(s) * 100)` (and the `amount_multiplier` variant) is modelled
as exact arithmetic on scaled decimals `(m, e)` denoting `m / 10^e`, with
round-half-to-even, matching CPython's banker's rounding.  This is exact
for the decimal currency notation the parsers receive. -/

/-- Round `m / 10^e` half-to-even to an integer. -/
def roundHalfEvenScaled (m : Int) (e : Nat) : Int :=
  let d : Int := (10 : Int) ^ e
  let f := Int.fdiv m d
  let r := m - f * d
  if 2 * r < d then f
  else if d < 2 * r then f + 1
  else if f.emod 2 == 0 then f else f + 1

/-- Parse a run of digits into a numerator, threading the count. -/
def digitsVal : List Char → Nat → Nat
  | [], acc => acc
  | c :: cs, acc => digitsVal cs (acc * 10 + digitVal c)

/-- Python `float(s)` restricted to plain decimal notation
(`[+-]? digits [. digits]`, at least one digit): result is `(m, e)` with
value `m / 10^e`.  Other strings (including empty) yield `none`, modelling
`ValueError`. -/
def parseDecimal (s : String) : Option (Int × Nat) :=
  let cs := s.toList
  let (sign, rest) : Int × List Char :=
    match cs with
    | '-' :: t => (-1, t)
    | '+' :: t => (1, t)
    | t => (1, t)
  let intPart := rest.takeWhile Char.isDigit
  let afterInt := rest.drop intPart.length
  match afterInt with
  | [] =>
    if intPart.isEmpty then none
    else some (sign * Int.ofNat (digitsVal intPart 0), 0)
  | '.' :: fracChars =>
    if fracChars.all Char.isDigit && !(intPart.isEmpty && fracChars.isEmpty) then
      some (sign * Int.ofNat (digitsVal (intPart ++ fracChars) 0), fracChars.length)
    else none
  | _ => none

/-! ### Data model (`app/models/*`) -/

/-- `ImportStatus` enum (`models/import_job.py`). -/
inductive ImportStatus where
  | pending | processing | completed | failed | categorizing | partiallyFailed
deriving DecidableEq, Repr

/-- `AccountType` enum (`models/account.py`). -/
inductive AccountType where
  | checking | savings | creditCard | brokerage | retirement
  | crypto | hsa | loan | mortgage | cash
deriving DecidableEq, Repr

/-- `AccountType(value)`: the enum coercion; unknown values raise
`ValueError` (modelled by `none`). -/
def AccountType.ofValue : String → Option AccountType
  | "checking" => some .checking
  | "savings" => some .savings
  | "credit_card" => some .creditCard
  | "brokerage" => some .brokerage
  | "retirement" => some .retirement
  | "crypto" => some .crypto
  | "hsa" => some .hsa
  | "loan" => some .loan
  | "mortgage" => some .mortgage
  | "cash" => some .cash
  | _ => none

/-- `models/institution.py`. -/
structure Institution where
  id : Nat
  name : String
deriving DecidableEq, Repr

/-- `models/account.py` (fields the pipeline touches). -/
structure Account where
  id : Nat
  userId : Option Nat
  institutionId : Nat
  name : String
  accountType : AccountType
  accountNumberLast4 : Option String
deriving DecidableEq, Repr

/-- `models/category.py` (fields the pipeline touches). -/
structure Category where
  id : Nat
  name : String
  isSystem : Bool
deriving DecidableEq, Repr

/-- `models/transaction.py` (fields the pipeline touches).  Dates are the
canonical ISO strings produced by `parseIsoDate`. -/
structure Txn where
  id : Nat
  accountId : Nat
  date : String
  originalDate : Option String
  amountCents : Int
  description : String
  originalDescription : Option String
  merchantName : Option String
  categoryId : Option Nat
  customName : Option String
  note : Option String
  isTransfer : Bool
  isTaxDeductible : Bool
  tags : Option (List String)
  importJobId : Option Nat
deriving DecidableEq, Repr

/-- `models/import_job.py`.  `completedAt` records whether `completed_at`
was set (clock values are not modelled). -/
structure ImportJob where
  id : Nat
  userId : Nat
  filename : String
  sourceType : String
  status : ImportStatus
  totalRows : Nat
  processedRows : Nat
  importedRows : Nat
  duplicateRows : Nat
  categorizedRows : Nat
  uncategorizedRows : Nat
  errorMessage : Option String
  source : String
  completedAt : Bool
deriving DecidableEq, Repr

/-! ### Parser schemas (`models/parser_schema.py`, `plugins/parsers/schema_based.py`) -/

/-- `detection_rules`: each absent key means "rule not checked".  The two
regex rules are modelled by the predicate the compiled pattern's
`re.search` computes (`filenamePattern` with `re.IGNORECASE` folded in). -/
structure DetectionRules where
  fileExtension : Option (List String) := none
  headerContains : Option (List String) := none
  headerPattern : Option (String → Bool) := none
  filenamePattern : Option (String → Bool) := none

/-- `transform_rules` of a parser schema.  `amountMultiplier` is the JSON
number as an exact scaled decimal `(m, e)` denoting `m / 10^e`. -/
structure TransformRules where
  delimiter : Option String := none
  dateFormat : Option String := none
  amountMultiplier : Option (Int × Nat) := none
  defaults : List (String × String) := []

/-- A `ParserSchema` row as cached by `SchemaBasedParser._load_schemas`. -/
structure ParserSchemaDef where
  name : String
  fileType : String
  detectionRules : DetectionRules
  columnMapping : List (String × String)
  transformRules : TransformRules
  isActive : Bool
  createdByAi : Bool

/-- `SchemaBasedParser._check_rules`: AND over the rule kinds present. -/
def checkRules (rules : DetectionRules) (content filename : String) : Bool :=
  let ext := fileExt filename
  (match rules.fileExtension with
   | none => true
   | some exts => exts.contains ext) &&
  (let line := firstLine content
   (match rules.headerContains with
    | none => true
    | some required => required.all (fun h => strContains line h)) &&
   (match rules.headerPattern with
    | none => true
    | some p => p line)) &&
  (match rules.filenamePattern with
   | none => true
   | some p => p filename)

/-- `SchemaBasedParser._match_schema`: first schema whose rules all match. -/
def matchSchema (schemas : List ParserSchemaDef) (content filename : String) :
    Option ParserSchemaDef :=
  schemas.find? (fun s => checkRules s.detectionRules content filename)

/-- `SchemaBasedParser.detect` over a loaded schema list. -/
def schemaBasedDetect (schemas : List ParserSchemaDef) (content filename : String) : Bool :=
  (matchSchema schemas content filename).isSome

/-- The amount-conversion transform of `SchemaBasedParser.parse` (lines
137-149): with `amount_multiplier` present multiply the raw `amount_cents`
field by it and round; otherwise multiply by 100 and round; non-numeric
text yields 0 on either path.  `none` means the record has no
`amount_cents` field, which the source leaves untouched. -/
def schemaAmountCents (mult : Option (Int × Nat)) (amountField : Option String) :
    Option Int :=
  match amountField with
  | none => none
  | some s =>
    match mult with
    | some (mm, me) =>
      match parseDecimal s with
      | some (m, e) => some (roundHalfEvenScaled (m * mm) (e + me))
      | none => some 0
    | none =>
      match parseDecimal s with
      | some (m, e) => some (roundHalfEvenScaled (m * 100) e)
      | none => some 0

/-! ### Canonical parsed rows and the fixed-format parser
(`plugins/parsers/rocket_money.py`) -/

/-- The canonical row dict a parser produces and `run_import` consumes.
Fields read with `row[...]` are plain; fields read with `row.get(...)`
are `Option` (absent key or `None` value map to `none`). -/
structure RawRow where
  date : String
  originalDate : Option String
  accountType : String
  accountName : String
  accountNumberLast4 : Option String
  institutionName : String
  merchantName : Option String
  customName : Option String
  amountCents : Int
  description : String
  originalDescription : Option String
  categoryName : Option String
  note : Option String
  isTransfer : Bool
  isTaxDeductible : Bool
  tags : Option (List String)
deriving DecidableEq, Repr

/-- `TRANSFER_CATEGORIES` from `rocket_money.py`. -/
def TRANSFER_CATEGORIES : List String :=
  ["Credit Card Payment", "Internal Transfers", "Savings Transfer"]

/-- `ACCOUNT_TYPE_MAP.get(raw, "checking")` from `rocket_money.py`. -/
def rocketAccountType : String → String
  | "Cash" => "checking"
  | "Credit Card" => "credit_card"
  | "Savings" => "savings"
  | "Brokerage" => "brokerage"
  | "Retirement" => "retirement"
  | "Loan" => "loan"
  | _ => "checking"

/-- Python `s or None`. -/
def strOrNone (s : String) : Option String :=
  if s == "" then none else some s

/-- `round(float(amount_str) * 100)` with `ValueError` giving 0, from
`RocketMoneyParser.parse`. -/
def rocketAmountCents (amountStr : String) : Int :=
  match parseDecimal amountStr with
  | some (m, e) => roundHalfEvenScaled (m * 100) e
  | none => 0

/-- The per-row body of `RocketMoneyParser.parse` (lines 70-109): `get`
models `row.get(column, default)` on the pandas row of strings (a `none`
result is an absent column). -/
def rocketParseRow (get : String → Option String) : RawRow :=
  let amountStr := pyStrip ((get "Amount").getD "0")
  let amountCents := rocketAmountCents amountStr
  let category := pyStrip ((get "Category").getD "")
  let tagsRaw := pyStrip ((get "Transaction Tags").getD "")
  let tags :=
    if tagsRaw == "" then []
    else ((splitOnChar ',' tagsRaw).map pyStrip).filter (fun t => t != "")
  let note := strOrNone (pyStrip ((get "Note").getD ""))
  let taxStr := pyLower (pyStrip ((get "Tax Deductible").getD ""))
  let isTaxDeductible := taxStr == "true" || taxStr == "yes" || taxStr == "1"
  let acctTypeRaw := pyStrip ((get "Account Type").getD "")
  let accountType := rocketAccountType acctTypeRaw
  let isTransfer := TRANSFER_CATEGORIES.contains category
  { date := pyStrip ((get "Date").getD "")
    originalDate := strOrNone (pyStrip ((get "Original Date").getD ""))
    accountType := accountType
    accountName := pyStrip ((get "Account Name").getD "")
    accountNumberLast4 := strOrNone (pyStrip ((get "Account Number").getD ""))
    institutionName := pyStrip ((get "Institution Name").getD "")
    merchantName := strOrNone (pyStrip ((get "Name").getD ""))
    customName := strOrNone (pyStrip ((get "Custom Name").getD ""))
    amountCents := amountCents
    description := pyStrip ((get "Description").getD "")
    originalDescription := some (pyStrip ((get "Description").getD ""))
    categoryName := some category
    note := note
    isTransfer := isTransfer
    isTaxDeductible := isTaxDeductible
    tags := if tags.isEmpty then none else some tags }

/-! ### Database state and sessions -/

/-- The relational store the pipeline touches. -/
structure DB where
  institutions : List Institution
  accounts : List Account
  categories : List Category
  txns : List Txn
  jobs : List ImportJob
  parserSchemas : List ParserSchemaDef
  nextId : Nat

/-- A SQLAlchemy session: committed state plus the current (autoflushed)
view including staged changes. -/
structure DbSession where
  committed : DB
  current : DB

/-- `db.commit()`. -/
def DbSession.commit (s : DbSession) : DbSession := ⟨s.current, s.current⟩

/-- `db.rollback()`. -/
def DbSession.rollback (s : DbSession) : DbSession := ⟨s.committed, s.committed⟩

/-- SQLAlchemy's `MultipleResultsFound` message for `scalar_one_or_none`. -/
def multipleRowsMsg : String :=
  "Multiple rows were found when one or none was required"

/-- Update the job row with this id. -/
def DB.updateJob (db : DB) (jid : Nat) (f : ImportJob → ImportJob) : DB :=
  { db with jobs := db.jobs.map (fun j => if j.id == jid then f j else j) }

/-- Fetch a job row (`select(ImportJob).where(id == jid)`). -/
def DB.findJob (db : DB) (jid : Nat) : Option ImportJob :=
  db.jobs.find? (fun j => j.id == jid)

/-! ### Entity resolution and deduplication (`services/import_service.py`) -/

/-- `_get_or_create_institution`: exact-name lookup via
`scalar_one_or_none` (raises on several matches), create + flush on miss. -/
def getOrCreateInstitution (db : DB) (name : String) :
    Except String (Institution × DB) :=
  match db.institutions.filter (fun i => i.name == name) with
  | [] =>
    let inst : Institution := { id := db.nextId, name := name }
    .ok (inst, { db with institutions := db.institutions ++ [inst],
                         nextId := db.nextId + 1 })
  | [inst] => .ok (inst, db)
  | _ => .error multipleRowsMsg

/-- Python truthiness of the `last4` argument: the lookup filter is added
only for a non-empty string. -/
def last4Filter (l : Option String) : Option String :=
  match l with
  | some s => if s == "" then none else some s
  | none => none

/-- The `where` predicate of `_get_or_create_account`'s lookup. -/
def acctMatches (instId : Nat) (name : String) (fl : Option String)
    (a : Account) : Bool :=
  a.institutionId == instId && a.name == name &&
    (match fl with
     | some s => a.accountNumberLast4 == some s
     | none => true)

/-- `_get_or_create_account`: lookup by (institution, name, last4 when
truthy); on miss create with the enum coercion defaulting to checking. -/
def getOrCreateAccount (db : DB) (inst : Institution) (name : String)
    (accountType : String) (last4 : Option String) (userId : Nat) :
    Except String (Account × DB) :=
  match db.accounts.filter (acctMatches inst.id name (last4Filter last4)) with
  | [] =>
    let acctType := (AccountType.ofValue accountType).getD .checking
    let acct : Account :=
      { id := db.nextId, userId := some userId, institutionId := inst.id,
        name := name, accountType := acctType, accountNumberLast4 := last4 }
    .ok (acct, { db with accounts := db.accounts ++ [acct],
                         nextId := db.nextId + 1 })
  | [acct] => .ok (acct, db)
  | _ => .error multipleRowsMsg

/-- `_get_or_create_category`: exact-name lookup, create as system
category on miss. -/
def getOrCreateCategory (db : DB) (name : String) :
    Except String (Category × DB) :=
  match db.categories.filter (fun c => c.name == name) with
  | [] =>
    let cat : Category := { id := db.nextId, name := name, isSystem := true }
    .ok (cat, { db with categories := db.categories ++ [cat],
                        nextId := db.nextId + 1 })
  | [cat] => .ok (cat, db)
  | _ => .error multipleRowsMsg

/-- `_is_duplicate`: exact-match existence check on the dedup key
(`limit(1)`, so no multiplicity error). -/
def isDuplicate (db : DB) (accountId : Nat) (txnDate : String)
    (amountCents : Int) (description : String) : Bool :=
  db.txns.any (fun t =>
    t.accountId == accountId && t.date == txnDate &&
    t.amountCents == amountCents && t.description == description)

/-! ### The row-processing loop shared by `run_import` and
`run_import_sync` (their loop bodies are line-for-line identical). -/

/-- `row.get("category_name", "Uncategorized") or "Uncategorized"`. -/
def effCatName (r : RawRow) : String :=
  match r.categoryName with
  | none => "Uncategorized"
  | some s => if s == "" then "Uncategorized" else s

/-- The f-string cache key `f"{inst}|{acct}|{row.get('last4', '')}"`. -/
def acctCacheKey (r : RawRow) : String :=
  r.institutionName ++ "|" ++ r.accountName ++ "|" ++
    (r.accountNumberLast4.getD "")

/-- Loop state: the current DB plus the per-run memoization caches and
the two counters. -/
structure RunState where
  db : DB
  instCache : List (String × Institution)
  acctCache : List (String × Account)
  catCache : List (String × Category)
  imported : Nat
  duplicates : Nat

/-- Memoized institution resolution (`inst_cache` + `_get_or_create_institution`). -/
def resolveInst (st : RunState) (name : String) :
    Except String (Institution × RunState) :=
  match st.instCache.find? (fun e => e.1 == name) with
  | some e => .ok (e.2, st)
  | none =>
    match getOrCreateInstitution st.db name with
    | .error e => .error e
    | .ok (inst, db) =>
      .ok (inst, { st with db := db,
                           instCache := st.instCache ++ [(name, inst)] })

/-- Memoized account resolution (`acct_cache` + `_get_or_create_account`). -/
def resolveAcct (userId : Nat) (st : RunState) (inst : Institution) (r : RawRow) :
    Except String (Account × RunState) :=
  match st.acctCache.find? (fun e => e.1 == acctCacheKey r) with
  | some e => .ok (e.2, st)
  | none =>
    match getOrCreateAccount st.db inst r.accountName r.accountType
      r.accountNumberLast4 userId with
    | .error e => .error e
    | .ok (acct, db) =>
      .ok (acct, { st with db := db,
                           acctCache := st.acctCache ++ [(acctCacheKey r, acct)] })

/-- Memoized category resolution (`cat_cache` + `_get_or_create_category`). -/
def resolveCat (st : RunState) (name : String) :
    Except String (Category × RunState) :=
  match st.catCache.find? (fun e => e.1 == name) with
  | some e => .ok (e.2, st)
  | none =>
    match getOrCreateCategory st.db name with
    | .error e => .error e
    | .ok (cat, db) =>
      .ok (cat, { st with db := db,
                          catCache := st.catCache ++ [(name, cat)] })

/-- `date.fromisoformat(row["original_date"]) if row.get("original_date")
else None`. -/
def parseOriginalDate (o : Option String) : Except String (Option String) :=
  match o with
  | some s =>
    if s != "" then (parseIsoDate s).map some else pure none
  | none => pure none

/-- One iteration of the row loop: resolve institution, account and
category (memoized), parse the date fields, then either count a duplicate
or stage a transaction linked to the job. -/
def step (userId jobId : Nat) (st : RunState) (r : RawRow) :
    Except String RunState := do
  let (inst, st) ← resolveInst st r.institutionName
  let (acct, st) ← resolveAcct userId st inst r
  let (cat, st) ← resolveCat st (effCatName r)
  let txnDate ← parseIsoDate r.date
  let originalDate ← parseOriginalDate r.originalDate
  if isDuplicate st.db acct.id txnDate r.amountCents r.description then
    pure { st with duplicates := st.duplicates + 1 }
  else
    let txn : Txn :=
      { id := st.db.nextId
        accountId := acct.id
        date := txnDate
        originalDate := originalDate
        amountCents := r.amountCents
        description := r.description
        originalDescription := r.originalDescription
        merchantName := r.merchantName
        categoryId := some cat.id
        customName := r.customName
        note := r.note
        isTransfer := r.isTransfer
        isTaxDeductible := r.isTaxDeductible
        tags := r.tags
        importJobId := some jobId }
    pure { st with
             db := { st.db with txns := st.db.txns ++ [txn],
                                nextId := st.db.nextId + 1 },
             imported := st.imported + 1 }

/-- The `for row in parsed` loop of `run_import`. -/
def foldRows (userId jobId : Nat) (st : RunState) :
    List RawRow → Except String RunState
  | [] => .ok st
  | r :: rs =>
    match step userId jobId st r with
    | .error e => .error e
    | .ok st' => foldRows userId jobId st' rs

/-! ### The import engine entry points -/

/-- A registered parser plugin: `detect` and `parse` as pure functions of
the file bytes and filename (a `parse` error is a raised exception). -/
structure Parser where
  name : String
  detect : String → String → Bool
  parse : String → String → Except String (List RawRow)

/-- `run_import` (async path, `import_service.py` lines 98-216): one
logical transaction; on any exception the whole session is rolled back
and only the FAILED job is committed. -/
def runImport (parsers : List Parser) (s : DbSession) (userId : Nat)
    (filename content : String) : ImportJob × DbSession :=
  match parsers.find? (fun p => p.detect content filename) with
  | none =>
    let job : ImportJob :=
      { id := s.current.nextId, userId := userId, filename := filename,
        sourceType := "unknown", status := .failed,
        totalRows := 0, processedRows := 0, importedRows := 0,
        duplicateRows := 0, categorizedRows := 0, uncategorizedRows := 0,
        errorMessage := some "No parser found for this file format",
        source := "upload", completedAt := false }
    let s :=
      DbSession.commit
        { s with current := { s.current with jobs := s.current.jobs ++ [job],
                                             nextId := s.current.nextId + 1 } }
    (job, s)
  | some parser =>
    let job : ImportJob :=
      { id := s.current.nextId, userId := userId, filename := filename,
        sourceType := parser.name, status := .processing,
        totalRows := 0, processedRows := 0, importedRows := 0,
        duplicateRows := 0, categorizedRows := 0, uncategorizedRows := 0,
        errorMessage := none, source := "upload", completedAt := false }
    let s : DbSession :=
      { s with current := { s.current with jobs := s.current.jobs ++ [job],
                                           nextId := s.current.nextId + 1 } }
    match parser.parse content filename with
    | .error e =>
      -- rollback, then re-add the job with FAILED status and commit
      let failedJob := { job with status := .failed,
                                  errorMessage := some (truncate1000 e) }
      let s := DbSession.rollback s
      -- the job keeps the id already generated for it (uuid4 in the
      -- source); the allocation counter stays past it
      let s :=
        DbSession.commit
          { s with current := { s.current with jobs := s.current.jobs ++ [failedJob],
                                               nextId := failedJob.id + 1 } }
      (failedJob, s)
    | .ok rows =>
      let jobT := { job with totalRows := rows.length }
      let s : DbSession :=
        { s with current :=
            s.current.updateJob job.id (fun j => { j with totalRows := rows.length }) }
      match foldRows userId job.id
        ⟨s.current, [], [], [], 0, 0⟩ rows with
      | .ok st =>
        let finalJob := { jobT with importedRows := st.imported,
                                    duplicateRows := st.duplicates,
                                    status := .completed, completedAt := true }
        let s :=
          DbSession.commit
            { s with current :=
                st.db.updateJob job.id (fun j =>
                  { j with importedRows := st.imported,
                           duplicateRows := st.duplicates,
                           status := .completed, completedAt := true }) }
        (finalJob, s)
      | .error e =>
        -- the caught exception: rollback discards the flushed job insert,
        -- then the job object (total_rows already set on it) is re-added
        -- with FAILED status and committed
        let failedJob := { jobT with status := .failed,
                                     errorMessage := some (truncate1000 e) }
        let s := DbSession.rollback s
        let s :=
          DbSession.commit
            { s with current := { s.current with jobs := s.current.jobs ++ [failedJob],
                                                 nextId := failedJob.id + 1 } }
        (failedJob, s)

/-! ### `run_import_sync` (background-worker path, lines 294-411): same
loop body, but the Celery task installs a progress callback and the loop
then commits every 100 rows. -/

/-- Loop state of the sync path: the last committed DB, the working run
state (its `db` is the session's current view) and the row index. -/
structure SyncAcc where
  committed : DB
  st : RunState
  i : Nat

/-- The `for i, row in enumerate(parsed)` loop of `run_import_sync`:
after each row, when a progress callback is installed and `(i+1) % 100 ==
0`, `processed_rows` is set and the session committed.  A raised
exception carries the DB state committed so far (what a rollback will
restore). -/
def syncFoldRows (userId jobId : Nat) (hasProgress : Bool) (acc : SyncAcc) :
    List RawRow → Except (String × DB) SyncAcc
  | [] => .ok acc
  | r :: rs =>
    match step userId jobId acc.st r with
    | .error e => .error (e, acc.committed)
    | .ok st' =>
      let i' := acc.i + 1
      if hasProgress && i' % 100 == 0 then
        let db' := st'.db.updateJob jobId (fun j => { j with processedRows := i' })
        syncFoldRows userId jobId hasProgress
          { committed := db', st := { st' with db := db' }, i := i' } rs
      else
        syncFoldRows userId jobId hasProgress { acc with st := st', i := i' } rs

/-- A placeholder job used only to keep lookups total; never reachable in
the theorems, which require the job row to exist. -/
def dummyJob : ImportJob :=
  { id := 0, userId := 0, filename := "", sourceType := "", status := .pending,
    totalRows := 0, processedRows := 0, importedRows := 0, duplicateRows := 0,
    categorizedRows := 0, uncategorizedRows := 0, errorMessage := none,
    source := "upload", completedAt := false }

/-- `run_import_sync`: operates on a pre-created `ImportJob` row;
`hasProgress` records whether an `on_progress` callback was passed (the
Celery worker always passes one).  An absent job row raises
(`scalar_one`). -/
def runImportSync (parsers : List Parser) (s : DbSession) (userId : Nat)
    (filename content : String) (jobId : Nat) (hasProgress : Bool) :
    Except String (ImportJob × DbSession) :=
  match s.current.findJob jobId with
  | none => .error "No row was found when one was required"
  | some _ =>
    match parsers.find? (fun p => p.detect content filename) with
    | none =>
      let s :=
        DbSession.commit
          { s with current := s.current.updateJob jobId (fun j =>
              { j with status := .failed,
                       errorMessage := some "No parser found for this file format" }) }
      .ok ((s.current.findJob jobId).getD dummyJob, s)
    | some parser =>
      let s :=
        DbSession.commit
          { s with current := s.current.updateJob jobId (fun j =>
              { j with sourceType := parser.name, status := .processing }) }
      match parser.parse content filename with
      | .error e =>
        let s := DbSession.rollback s
        let s :=
          DbSession.commit
            { s with current := s.current.updateJob jobId (fun j =>
                { j with status := .failed,
                         errorMessage := some (truncate1000 e) }) }
        .ok ((s.current.findJob jobId).getD dummyJob, s)
      | .ok rows =>
        let s :=
          DbSession.commit
            { s with current := s.current.updateJob jobId (fun j =>
                { j with totalRows := rows.length }) }
        match syncFoldRows userId jobId hasProgress
          ⟨s.current, ⟨s.current, [], [], [], 0, 0⟩, 0⟩ rows with
        | .ok acc =>
          let s :=
            DbSession.commit
              { s with current :=
                  acc.st.db.updateJob jobId (fun j =>
                    { j with processedRows := rows.length,
                             importedRows := acc.st.imported,
                             duplicateRows := acc.st.duplicates }) }
          .ok ((s.current.findJob jobId).getD dummyJob, s)
        | .error (e, committedAtFailure) =>
          -- db.rollback() restores the last checkpoint commit, then the
          -- job is marked FAILED and committed
          let s : DbSession := ⟨committedAtFailure, committedAtFailure⟩
          let s :=
            DbSession.commit
              { s with current := s.current.updateJob jobId (fun j =>
                  { j with status := .failed,
                           errorMessage := some (truncate1000 e) }) }
          .ok ((s.current.findJob jobId).getD dummyJob, s)

/-! ### Categorization service (`services/categorization_service.py`) -/

/-- The per-transaction dict sent to the AI provider's batch call. -/
structure TxnDictQ where
  description : String
  merchantName : Option String
  amountCents : Int
deriving DecidableEq, Repr

/-- One entry of the AI provider's batch reply (a JSON dict; absent keys
are `none`). -/
structure AIResult where
  category : Option String := none
  confidence : Option ℚ := none
  merchantNormalized : Option String := none

/-- The fallback result used when the provider returned fewer entries
than transactions. -/
def defaultAIResult : AIResult :=
  { category := some "Uncategorized", confidence := some 0,
    merchantNormalized := none }

/-- One entry of `categorize_batch`'s return list. -/
structure BatchItem where
  transactionId : Nat
  categoryName : String
  confidence : ℚ
  merchantNormalized : Option String

/-- `_match_category`: exact-name lookup first (`scalar_one_or_none`,
raising on several exact matches), then a case-insensitive scan over all
categories in storage order. -/
def matchCategory (db : DB) (name : String) : Except String (Option Category) :=
  match db.categories.filter (fun c => c.name == name) with
  | [c] => .ok (some c)
  | [] => .ok (db.categories.find? (fun c => pyLower c.name == pyLower name))
  | _ => .error multipleRowsMsg

/-- `select(Transaction).where(id == tid)` as the batch's `txn_map`
lookup. -/
def DB.findTxn (db : DB) (tid : Nat) : Option Txn :=
  db.txns.find? (fun t => t.id == tid)

/-- Update the transaction row with this id. -/
def DB.updateTxn (db : DB) (tid : Nat) (f : Txn → Txn) : DB :=
  { db with txns := db.txns.map (fun t => if t.id == tid then f t else t) }

/-- A placeholder transaction keeping lookups total; the loop below only
visits ids that do resolve. -/
def dummyTxn : Txn :=
  { id := 0, accountId := 0, date := "", originalDate := none, amountCents := 0,
    description := "", originalDescription := none, merchantName := none,
    categoryId := none, customName := none, note := none, isTransfer := false,
    isTaxDeductible := false, tags := none, importJobId := none }

/-- The result loop of `categorize_batch` (lines 114-136): one output per
ordered id, category link set on match, merchant name rewritten when both
sides are truthy. -/
def catBatchLoop (aiResults : List AIResult) (i : Nat) (db : DB)
    (out : List BatchItem) : List Nat → Except String (List BatchItem × DB)
  | [] => .ok (out, db)
  | tid :: rest =>
    let txn := (db.findTxn tid).getD dummyTxn
    let r := aiResults.getD i defaultAIResult
    let catName := r.category.getD "Uncategorized"
    match matchCategory db catName with
    | .error e => .error e
    | .ok copt =>
      let db :=
        match copt with
        | some c => db.updateTxn tid (fun t => { t with categoryId := some c.id })
        | none => db
      let db :=
        match r.merchantNormalized with
        | some mn =>
          if mn != "" && ((txn.merchantName.getD "") != "") then
            db.updateTxn tid (fun t => { t with merchantName := some mn })
          else db
        | none => db
      let item : BatchItem :=
        { transactionId := tid
          categoryName := match copt with | some c => c.name | none => catName
          confidence := r.confidence.getD (1 / 2)
          merchantNormalized := r.merchantNormalized }
      catBatchLoop aiResults (i + 1) db (out ++ [item]) rest

/-- `categorize_batch`: empty result set returns early; otherwise the
found transactions are processed in input-id order (missing ids silently
dropped) and the session committed at the end.  The provider's batch call
may raise. -/
def categorizeBatch (db : DB) (ids : List Nat)
    (provider : List TxnDictQ → Except String (List AIResult)) :
    Except String (List BatchItem × DB) :=
  let found := db.txns.filter (fun t => ids.contains t.id)
  if found.isEmpty then .ok ([], db)
  else
    let ordered := ids.filter (fun tid => (db.findTxn tid).isSome)
    let txnDicts := ordered.map (fun tid =>
      let t := (db.findTxn tid).getD dummyTxn
      ({ description := t.description, merchantName := t.merchantName,
         amountCents := t.amountCents } : TxnDictQ))
    match provider txnDicts with
    | .error e => .error e
    | .ok aiResults => catBatchLoop aiResults 0 db [] ordered

/-! ### The categorize background task
(`tasks/import_tasks.py`, `categorize_import_task`) -/

/-- Structural worker for `chunksOf`; `fuel` bounds the recursion depth
(the fuel-exhausted case is unreachable when `fuel ≥ l.length` and the
chunk size is positive). -/
def chunksOfGo (n : Nat) : Nat → List α → List (List α)
  | _, [] => []
  | 0, l => [l]
  | fuel + 1, a :: l => (a :: l.take (n - 1)) :: chunksOfGo n fuel (l.drop (n - 1))

/-- Python `range(0, len(ids), 20)` slicing into consecutive batches. -/
def chunksOf (n : Nat) (l : List α) : List (List α) :=
  chunksOfGo n l.length l

/-- Accumulator of the per-batch loop: current DB, counters, accumulated
warnings, next batch number, plus the audit trail of committed job
statuses and committed `categorized_rows` values. -/
structure CatLoopAcc where
  db : DB
  categorized : Nat
  errors : List String
  num : Nat
  statusTrace : List ImportStatus
  commitsCategorized : List Nat

/-- The per-batch loop (lines 230-265): each batch runs `categorize_batch`
in a fresh session; on success `categorized_rows` is committed, on any
exception a warning `"Batch n: msg"` is accumulated and the loop
continues. -/
def catTaskBatches (jid : Nat)
    (provider : List TxnDictQ → Except String (List AIResult))
    (acc : CatLoopAcc) : List (List Nat) → CatLoopAcc
  | [] => acc
  | b :: bs =>
    match categorizeBatch acc.db b provider with
    | .ok (results, db') =>
      let categorized := acc.categorized +
        (results.filter (fun r => r.categoryName != "Uncategorized")).length
      let db'' := db'.updateJob jid (fun j => { j with categorizedRows := categorized })
      catTaskBatches jid provider
        { db := db''
          categorized := categorized
          errors := acc.errors
          num := acc.num + 1
          statusTrace := acc.statusTrace ++ [((db''.findJob jid).getD dummyJob).status]
          commitsCategorized := acc.commitsCategorized ++ [categorized] } bs
    | .error e =>
      let n := acc.num
      catTaskBatches jid provider
        { acc with errors := acc.errors ++ [s!"Batch {n}: {e}"],
                   num := acc.num + 1 } bs

/-- What `categorize_import_task` did, for the theorems: whether it
skipped, whether it reached the CATEGORIZING transition, the id batches
it attempted, every job status it committed, every `categorized_rows`
value it committed, and the accumulated warnings. -/
structure CatTaskOutcome where
  skipped : Bool
  enteredPhase : Bool
  batches : List (List Nat)
  statusTrace : List ImportStatus
  commitsCategorized : List Nat
  errors : List String
  categorized : Nat

/-- The warning message attached to `error_message` (first 5 batch
failures reported). -/
def catWarnMsg (errors : List String) : String :=
  let k := errors.length
  s!"Categorization warnings ({k} batches): " ++
    String.intercalate "; " (errors.take 5)

/-- `categorize_import_task`: best-effort categorization of a finished
import.  `importJobId`/`importStatus` are the chained result of the
process task.  The only uncaught exception point is the `scalar_one_or_none`
lookup of the "Uncategorized" category. -/
def categorizeImportTask (db : DB) (importJobId : Option Nat)
    (importStatus : String)
    (provider : List TxnDictQ → Except String (List AIResult)) :
    Except String (DB × CatTaskOutcome) :=
  match importJobId with
  | none =>
    .ok (db, { skipped := true, enteredPhase := false, batches := [],
               statusTrace := [], commitsCategorized := [], errors := [],
               categorized := 0 })
  | some jid =>
    if importStatus == "failed" then
      .ok (db, { skipped := true, enteredPhase := false, batches := [],
                 statusTrace := [], commitsCategorized := [], errors := [],
                 categorized := 0 })
    else
      match db.findJob jid with
      | none =>
        .ok (db, { skipped := true, enteredPhase := false, batches := [],
                   statusTrace := [], commitsCategorized := [], errors := [],
                   categorized := 0 })
      | some _ =>
        match db.categories.filter (fun c => c.name == "Uncategorized") with
        | [] =>
          let db := db.updateJob jid (fun j =>
            { j with status := .completed, completedAt := true })
          .ok (db, { skipped := false, enteredPhase := false, batches := [],
                     statusTrace := [((db.findJob jid).getD dummyJob).status],
                     commitsCategorized := [], errors := [], categorized := 0 })
        | uncat :: restUncat =>
          if restUncat.isEmpty then
            let uncatTxns := db.txns.filter (fun t =>
              t.importJobId == some jid && t.categoryId == some uncat.id)
            if uncatTxns.isEmpty then
              let db := db.updateJob jid (fun j =>
                { j with status := .completed, completedAt := true })
              .ok (db, { skipped := false, enteredPhase := false, batches := [],
                         statusTrace := [((db.findJob jid).getD dummyJob).status],
                         commitsCategorized := [], errors := [], categorized := 0 })
            else
              let db := db.updateJob jid (fun j =>
                { j with status := .categorizing,
                         uncategorizedRows := uncatTxns.length })
              let trace0 := [((db.findJob jid).getD dummyJob).status]
              let txnIds := uncatTxns.map (fun t => t.id)
              let batches := chunksOf 20 txnIds
              let acc := catTaskBatches jid provider
                { db := db, categorized := 0, errors := [], num := 1,
                  statusTrace := trace0, commitsCategorized := [] } batches
              -- always mark completed; attach warnings when any occurred
              let finalDb := acc.db.updateJob jid (fun j =>
                { j with status := .completed, completedAt := true,
                         errorMessage :=
                           if acc.errors.isEmpty then j.errorMessage
                           else some (catWarnMsg acc.errors) })
              .ok (finalDb,
                { skipped := false, enteredPhase := true, batches := batches,
                  statusTrace := acc.statusTrace ++
                    [((finalDb.findJob jid).getD dummyJob).status],
                  commitsCategorized := acc.commitsCategorized,
                  errors := acc.errors, categorized := acc.categorized })
          else .error multipleRowsMsg

/-! ### Upload route (`api/imports.py` `upload_file`) with inline schema
inference (`services/schema_inference_service.py`) -/

/-- `Path(filename).stem`: the filename without its last suffix. -/
def pathStem (filename : String) : String :=
  let parts := splitOnChar '.' filename
  if parts.length ≤ 1 then filename
  else String.intercalate "." (parts.dropLast)

/-- `Path(filename).suffix.lower().lstrip(".")`. -/
def pathSuffixNoDot (filename : String) : String :=
  let parts := splitOnChar '.' filename
  if parts.length ≤ 1 then ""
  else pyLower (parts.getLastD "")

/-- The JSON object the AI returns for schema inference: the three parts
read with `.get(key, {})`. -/
structure InferredSchema where
  detectionRules : DetectionRules
  columnMapping : List (String × String)
  transformRules : TransformRules

/-- `infer_and_save_schema` minus the network call: build the ParserSchema
row from the inferred JSON and the filename. -/
def buildInferredSchema (filename : String) (inf : InferredSchema) :
    ParserSchemaDef :=
  let stem := pathStem filename
  let name := pyLower ((("ai-inferred-" ++ stem).toList.map
    (fun c => if c == ' ' then '-' else c)).asString)
  let ext := pathSuffixNoDot filename
  let fileType :=
    if ext == "csv" || ext == "tsv" || ext == "ofx" || ext == "qfx" || ext == "pdf"
    then ext else "csv"
  { name := (name.toList.take 255).asString
    fileType := fileType
    detectionRules := inf.detectionRules
    columnMapping := inf.columnMapping
    transformRules := inf.transformRules
    isActive := true
    createdByAi := true }

/-- The active schemas the `SchemaBasedParser` loads on `reload_schemas`. -/
def activeSchemas (db : DB) : List ParserSchemaDef :=
  db.parserSchemas.filter (fun s => s.isActive)

/-- `upload_file`: validate, try registered parsers, on failure attempt
AI schema inference once (persisting the inferred schema and reloading
the schema parser), then either create a PENDING job or reject.  `infer`
is the outcome of the AI call (`.error` models a raised exception inside
the try, which is swallowed).  The returned DB is the committed state
(a persisted inferred schema survives a rejection); the `Except` is the
HTTP outcome. -/
def uploadFile (parsers : List Parser) (infer : Except String InferredSchema)
    (db : DB) (userId : Nat) (filename content : String) :
    DB × Except String ImportJob :=
  if content == "" then (db, .error "Empty file")
  else
    let parserFound := parsers.any (fun p => p.detect content filename)
    let (db, parserFound) :=
      if parserFound then (db, true)
      else
        match infer with
        | .error _ => (db, false)
        | .ok inf =>
          let schema := buildInferredSchema filename inf
          let db := { db with parserSchemas := db.parserSchemas ++ [schema] }
          (db, schemaBasedDetect (activeSchemas db) content filename)
    if !parserFound then
      (db, .error "No parser found for this file format")
    else
      let job : ImportJob :=
        { id := db.nextId, userId := userId, filename := filename,
          sourceType := "unknown", status := .pending,
          totalRows := 0, processedRows := 0, importedRows := 0,
          duplicateRows := 0, categorizedRows := 0, uncategorizedRows := 0,
          errorMessage := none, source := "upload", completedAt := false }
      ({ db with jobs := db.jobs ++ [job], nextId := db.nextId + 1 }, .ok job)

/-! ### Predicates used by the theorems -/

/-- The database only grew by appended rows (what a run's flushes do). -/
def DbExt (d d' : DB) : Prop :=
  (∃ l, d'.institutions = d.institutions ++ l) ∧
  (∃ l, d'.accounts = d.accounts ++ l) ∧
  (∃ l, d'.categories = d.categories ++ l) ∧
  (∃ l, d'.txns = d.txns ++ l)

/-- Soundness of the per-run memoization caches with respect to the
current database: a cached institution/category is the unique row with
its name, a cached account is a stored row. -/
def CacheInv (st : RunState) : Prop :=
  (∀ e ∈ st.instCache,
     st.db.institutions.filter (fun i => i.name == e.1) = [e.2]) ∧
  (∀ e ∈ st.catCache,
     st.db.categories.filter (fun c => c.name == e.1) = [e.2]) ∧
  (∀ e ∈ st.acctCache, e.2 ∈ st.db.accounts)

/-- Two databases agreeing on the four entity tables the row loop reads. -/
def EntEq (d d' : DB) : Prop :=
  d.institutions = d'.institutions ∧ d.accounts = d'.accounts ∧
  d.categories = d'.categories ∧ d.txns = d'.txns

/-- After the first run, no row's account lookup is ambiguous: at most
one stored account matches it (`scalar_one_or_none` raises otherwise;
see the C2 counterexample). -/
def AcctUnambiguous (d : DB) (r : RawRow) : Prop :=
  ∀ inst ∈ d.institutions, inst.name = r.institutionName →
    (d.accounts.filter
      (acctMatches inst.id r.accountName (last4Filter r.accountNumberLast4))).length ≤ 1

/-! ### Concrete scenarios for the counterexamples and witnesses -/

/-- An empty database (id counter away from 0 so scenario ids stand out). -/
def emptyDB : DB := ⟨[], [], [], [], [], [], 100⟩

/-- A canonical well-formed row used by concrete scenarios. -/
def mkRow (desc : String) (last4 : Option String) : RawRow :=
  { date := "2024-01-15", originalDate := none, accountType := "checking",
    accountName := "Checking", accountNumberLast4 := last4,
    institutionName := "Chase", merchantName := none, customName := none,
    amountCents := 450, description := desc, originalDescription := none,
    categoryName := some "Groceries", note := none, isTransfer := false,
    isTaxDeductible := false, tags := none }

/-- A parser that accepts everything and yields a fixed row list. -/
def constParser (rows : List RawRow) : Parser :=
  { name := "toy", detect := fun _ _ => true, parse := fun _ _ => .ok rows }

/-- C2 counterexample file: same institution and account name throughout,
first with last4 "1111", then without a last4, then with last4 "2222". -/
def rowsMixedLast4 : List RawRow :=
  [mkRow "a" (some "1111"), mkRow "c" none, mkRow "b" (some "2222")]

/-- First import of the mixed-last4 file into an empty store. -/
def mixedRun1 : ImportJob × DbSession :=
  runImport [constParser rowsMixedLast4] ⟨emptyDB, emptyDB⟩ 7 "f.csv" "x"

/-- C1 counterexample file: 100 good rows followed by one with an
unparseable date. -/
def rows101 : List RawRow :=
  (List.range 100).map (fun i => mkRow (toString i) none) ++
    [{ mkRow "bad" none with date := "oops" }]

/-- The pre-created job row the background worker operates on. -/
def preJob : ImportJob :=
  { dummyJob with id := 55, userId := 7, filename := "f.csv" }

/-- Store holding just the pre-created job. -/
def preJobDB : DB := { emptyDB with jobs := [preJob] }

/-- A one-row file for the idempotence witness. -/
def rowsSingle : List RawRow := [mkRow "solo" none]

/-- First import of the one-row file (idempotence witness). -/
def singleRun1 : ImportJob × DbSession :=
  runImport [constParser rowsSingle] ⟨emptyDB, emptyDB⟩ 7 "f.csv" "x"

/-- A parser that accepts everything and raises while parsing (C1). -/
def failParser : Parser :=
  { name := "toy", detect := fun _ _ => true, parse := fun _ _ => .error "boom" }

/-- `row.get("Category")` returning "Internal Transfers" (C7). -/
def internalTransferGet : String → Option String :=
  fun c => if c == "Category" then some "Internal Transfers" else some ""

/-- Category store for the case-insensitive matching scenario: only
"Groceries" (no exact "groceries"). -/
def groceriesDB : DB :=
  { emptyDB with categories := [{ id := 1, name := "Groceries", isSystem := true }] }

/-- Store for the categorize-batch scenarios: three transactions and one
category. -/
def batchDB : DB :=
  { emptyDB with
      txns := [{ dummyTxn with id := 1, description := "ALPHA" },
               { dummyTxn with id := 2, description := "BETA" },
               { dummyTxn with id := 3, description := "GAMMA" }]
      categories := [{ id := 9, name := "Groceries", isSystem := false }] }

/-- A provider answering "Mystery" for everything. -/
def mysteryProvider : List TxnDictQ → Except String (List AIResult) :=
  fun ds => .ok (ds.map (fun _ => { category := some "Mystery" }))

/-- A provider whose batch call always raises. -/
def failingProvider : List TxnDictQ → Except String (List AIResult) :=
  fun _ => .error "boom"

/-- Store for the categorize-task witness: the pre-created job, the
"Uncategorized" category and one transaction of the job still linked to
it. -/
def catTaskDB : DB :=
  { emptyDB with
      jobs := [{ preJob with status := .completed }]
      categories := [{ id := 3, name := "Uncategorized", isSystem := true }]
      txns := [{ dummyTxn with
                   id := 21
                   categoryId := some 3
                   importJobId := some 55 }] }

/-! ## Theorems -/

/-! ### C7 — transfer flagging by the fixed-format parser -/

/-- Claim C7 as frozen is false: the fixed transfer-category set also
contains "Internal Transfers", so a row whose category is neither
"Savings Transfer" nor "Credit Card Payment" is still flagged
`is_transfer`. -/
theorem rocket_transfer_counterexample :
    (rocketParseRow internalTransferGet).categoryName = some "Internal Transfers" ∧
    (rocketParseRow internalTransferGet).isTransfer = true ∧
    some "Internal Transfers" ≠ some "Savings Transfer" ∧
    some "Internal Transfers" ≠ some "Credit Card Payment" := by
  refine ⟨by decide, by decide, by decide, by decide⟩

/-- Claim C7 (amended): for every row parsed by the fixed-format parser,
`is_transfer` is true exactly when the row's category is "Savings
Transfer", "Credit Card Payment" or "Internal Transfers". -/
theorem rocket_transfer_iff (get : String → Option String) :
    (rocketParseRow get).isTransfer = true ↔
      ((rocketParseRow get).categoryName = some "Credit Card Payment" ∨
       (rocketParseRow get).categoryName = some "Internal Transfers" ∨
       (rocketParseRow get).categoryName = some "Savings Transfer") := by
  show (TRANSFER_CATEGORIES.contains (pyStrip ((get "Category").getD ""))) = true ↔ _
  simp [TRANSFER_CATEGORIES, List.contains, rocketParseRow]

/-! ### C3 — decimal currency conversion to integer cents -/

/-- Claim C3: both parsers convert the decimal amount string to cents by
multiplying by 100 (or by the schema's `amount_multiplier`) and rounding;
"4.50" gives 450 and "-3500.00" gives -350000; non-numeric text gives 0;
and the fixed-format row carries exactly this conversion of its stripped
"Amount" field. -/
theorem amount_cents_conversion :
    rocketAmountCents "4.50" = 450 ∧
    rocketAmountCents "-3500.00" = -350000 ∧
    schemaAmountCents none (some "4.50") = some 450 ∧
    schemaAmountCents none (some "-3500.00") = some (-350000) ∧
    (∀ get, (rocketParseRow get).amountCents =
        rocketAmountCents (pyStrip ((get "Amount").getD "0"))) ∧
    (∀ s m e, parseDecimal s = some (m, e) →
        rocketAmountCents s = roundHalfEvenScaled (m * 100) e) ∧
    (∀ s, parseDecimal s = none → rocketAmountCents s = 0) ∧
    (∀ s m e mm me, parseDecimal s = some (m, e) →
        schemaAmountCents (some (mm, me)) (some s) =
          some (roundHalfEvenScaled (m * mm) (e + me))) ∧
    (∀ s mult, parseDecimal s = none →
        schemaAmountCents (some mult) (some s) = some 0) := by
  refine ⟨by decide, by decide, by decide, by decide, fun get => rfl,
    fun s m e h => by simp [rocketAmountCents, h],
    fun s h => by simp [rocketAmountCents, h],
    fun s m e mm me h => by simp [schemaAmountCents, h],
    fun s mult h => by
      obtain ⟨mm, me⟩ := mult
      simp [schemaAmountCents, h]⟩

/-- Witness for C3: the conversion evaluated at concrete inputs, with the
non-numeric hypothesis discharged at "abc". -/
theorem amount_cents_conversion_witness : rocketAmountCents "abc" = 0 :=
  amount_cents_conversion.2.2.2.2.2.2.1 "abc" (by decide)

/-! ### C6 — schema detection rules -/

/-- `_check_rules` is the conjunction of the rule kinds present, each
absent kind being vacuously satisfied. -/
theorem checkRules_iff (rules : DetectionRules) (content filename : String) :
    checkRules rules content filename = true ↔
      ((∀ exts, rules.fileExtension = some exts →
          exts.contains (fileExt filename) = true) ∧
       (∀ hs, rules.headerContains = some hs →
          ∀ h ∈ hs, strContains (firstLine content) h = true) ∧
       (∀ p, rules.headerPattern = some p → p (firstLine content) = true) ∧
       (∀ p, rules.filenamePattern = some p → p filename = true)) := by
  obtain ⟨fe, hc, hp, fp⟩ := rules
  cases fe <;> cases hc <;> cases hp <;> cases fp <;>
    simp [checkRules, List.all_eq_true, and_assoc]

/-- Claim C6: a schema whose detection rules require
`header_contains: ["Date","Amount"]` is detected only when both
substrings occur in the file's first line, and never on a zero-byte
file; in general `_check_rules` has AND semantics over the rule kinds
present and absent kinds hold vacuously. -/
theorem schema_detection_rules_spec :
    (∀ rules hs content filename, rules.headerContains = some hs →
        checkRules rules content filename = true →
        ∀ h ∈ hs, strContains (firstLine content) h = true) ∧
    (∀ rules filename, rules.headerContains = some ["Date", "Amount"] →
        checkRules rules "" filename = false) ∧
    (∀ schemas filename,
        (∀ sc ∈ schemas,
            sc.detectionRules.headerContains = some ["Date", "Amount"]) →
        schemaBasedDetect schemas "" filename = false) ∧
    (∀ rules content filename,
        checkRules rules content filename = true ↔
          ((∀ exts, rules.fileExtension = some exts →
              exts.contains (fileExt filename) = true) ∧
           (∀ hs, rules.headerContains = some hs →
              ∀ h ∈ hs, strContains (firstLine content) h = true) ∧
           (∀ p, rules.headerPattern = some p → p (firstLine content) = true) ∧
           (∀ p, rules.filenamePattern = some p → p filename = true))) := by
  have hzero : ∀ rules filename, rules.headerContains = some ["Date", "Amount"] →
      checkRules rules "" filename = false := by
    intro rules filename hrule
    cases hck : checkRules rules "" filename with
    | false => rfl
    | true =>
      have hdate := ((checkRules_iff rules "" filename).mp hck).2.1
        ["Date", "Amount"] hrule "Date" (by simp)
      exact absurd hdate (by decide)
  refine ⟨?_, hzero, ?_, checkRules_iff⟩
  · intro rules hs content filename hrule hck
    exact ((checkRules_iff rules content filename).mp hck).2.1 hs hrule
  · intro schemas filename hall
    show (matchSchema schemas "" filename).isSome = false
    unfold matchSchema
    cases hf : schemas.find? (fun s => checkRules s.detectionRules "" filename) with
    | none => rfl
    | some sc =>
      have hmem := List.mem_of_find?_eq_some hf
      have hck := List.find?_some hf
      have := hzero sc.detectionRules filename (hall sc hmem)
      rw [hck] at this
      cases this

/-- Witness for C6: the zero-byte conjunct applied at a concrete rule
record. -/
theorem schema_detection_rules_spec_witness :
    checkRules { headerContains := some ["Date", "Amount"] } "" "f.csv" = false :=
  schema_detection_rules_spec.2.1 { headerContains := some ["Date", "Amount"] }
    "f.csv" rfl

/-! ### C9 — category-name matching -/

/-- Claim C9: `_match_category` prefers an exact name match, falls back
to the first case-insensitive match ("groceries" finds "Groceries" when
no exact row exists), and an unmatched name leaves the transaction's
category link unset while the literal name is kept in the result. -/
theorem match_category_spec :
    (∀ db name c, db.categories.filter (fun x => x.name == name) = [c] →
        matchCategory db name = .ok (some c)) ∧
    (∀ db name, db.categories.filter (fun x => x.name == name) = [] →
        matchCategory db name =
          .ok (db.categories.find? (fun c => pyLower c.name == pyLower name))) ∧
    matchCategory groceriesDB "groceries" =
      .ok (some { id := 1, name := "Groceries", isSystem := true }) ∧
    (categorizeBatch batchDB [1] mysteryProvider).toOption.map
        (fun od => (od.1.map (fun it => it.categoryName),
                    od.2.txns.map (fun t => t.categoryId)))
      = some (["Mystery"], [none, none, none]) := by
  refine ⟨?_, ?_, by decide, by decide⟩
  · intro db name c h
    simp [matchCategory, h]
  · intro db name h
    simp [matchCategory, h]

/-- Witness for C9: exact-match priority applied at a concrete store. -/
theorem match_category_spec_witness :
    matchCategory groceriesDB "Groceries" =
      .ok (some { id := 1, name := "Groceries", isSystem := true }) :=
  match_category_spec.1 groceriesDB "Groceries" _ (by decide)

/-! ### C8 — `categorize_batch` id handling -/

/-- The result loop emits exactly one item per visited id, in order. -/
theorem catBatchLoop_ids (aiResults : List AIResult) :
    ∀ (l : List Nat) (i : Nat) (db : DB) (out out' : List BatchItem) (db' : DB),
      catBatchLoop aiResults i db out l = .ok (out', db') →
      out'.map (fun it => it.transactionId) =
        out.map (fun it => it.transactionId) ++ l := by
  intro l
  induction l with
  | nil =>
    intro i db out out' db' h
    simp only [catBatchLoop] at h
    cases h
    simp
  | cons tid rest ih =>
    intro i db out out' db' h
    simp only [catBatchLoop] at h
    split at h
    · exact absurd h (by simp)
    · have := ih _ _ _ _ _ h
      simpa using this

/-- Claim C8: `categorize_batch` with an empty id list returns an empty
result without error, and in general returns exactly one result per id
that resolves to a stored transaction, in input order, nonexistent ids
silently dropped. -/
theorem categorize_batch_spec :
    (∀ db provider, categorizeBatch db [] provider = .ok ([], db)) ∧
    (∀ db ids provider out db',
        categorizeBatch db ids provider = .ok (out, db') →
        out.map (fun it => it.transactionId) =
          ids.filter (fun tid => (db.findTxn tid).isSome)) := by
  constructor
  · intro db provider
    have hfil : db.txns.filter (fun t => ([] : List Nat).contains t.id) = [] := by
      induction db.txns with
      | nil => rfl
      | cons t ts ih => simp [List.filter, ih]
    simp [categorizeBatch, hfil]
  · intro db ids provider out db' h
    simp only [categorizeBatch] at h
    split at h
    · -- no transaction matched any id
      rename_i hempty
      have hnone : ∀ tid ∈ ids, (db.findTxn tid).isSome = false := by
        intro tid hmem
        cases ht : db.findTxn tid with
        | none => rfl
        | some t =>
          exfalso
          have htmem := List.mem_of_find?_eq_some ht
          have htid : t.id = tid := by simpa using List.find?_some ht
          have hin : t ∈ db.txns.filter (fun t => ids.contains t.id) := by
            refine List.mem_filter.mpr ⟨htmem, ?_⟩
            subst htid
            exact List.elem_iff.mpr hmem
          rw [List.isEmpty_iff.mp hempty] at hin
          cases hin
      cases h
      have hfil : ids.filter (fun tid => (db.findTxn tid).isSome) = [] :=
        List.filter_eq_nil_iff.mpr (fun a ha => by simp [hnone a ha])
      simp [hfil]
    · split at h
      · exact absurd h (by simp)
      · simpa using catBatchLoop_ids _ _ _ _ _ _ _ h

/-- Witness for C8: the ordering conjunct evaluated on a store with
transactions 1, 2, 3 and the mixed id list [5, 2, 9, 1]. -/
theorem categorize_batch_spec_witness :
    ∃ out db', categorizeBatch batchDB [5, 2, 9, 1] mysteryProvider = .ok (out, db') ∧
      out.map (fun it => it.transactionId) = [2, 1] := by
  obtain ⟨out, db', heq⟩ :
      ∃ out db', categorizeBatch batchDB [5, 2, 9, 1] mysteryProvider = .ok (out, db') :=
    ⟨_, _, rfl⟩
  refine ⟨out, db', heq, ?_⟩
  rw [categorize_batch_spec.2 batchDB [5, 2, 9, 1] mysteryProvider out db' heq]
  decide

/-! ### C4 — upload rejection when no parser matches and inference fails -/

/-- Appending an active schema row extends the active-schema view. -/
theorem activeSchemas_append_active (db : DB) (s : ParserSchemaDef)
    (hs : s.isActive = true) :
    activeSchemas { db with parserSchemas := db.parserSchemas ++ [s] } =
      activeSchemas db ++ [s] := by
  simp [activeSchemas, List.filter_append, hs]

/-- Claim C4: when no registered parser detects the upload and the single
schema-inference attempt either raises or produces a schema that still
does not detect the file, the upload returns the "no parser found"
rejection and no `ImportJob` row is persisted.  (A non-empty upload is
assumed: an empty one is rejected even earlier, as "Empty file", still
without persisting a job.) -/
theorem upload_rejects_undetected_file
    (parsers : List Parser) (infer : Except String InferredSchema) (db : DB)
    (uid : Nat) (filename content : String)
    (hne : content ≠ "")
    (hdet : parsers.any (fun p => p.detect content filename) = false)
    (hinf : ∀ inf, infer = .ok inf →
        schemaBasedDetect (activeSchemas db ++ [buildInferredSchema filename inf])
          content filename = false) :
    (uploadFile parsers infer db uid filename content).2 =
      .error "No parser found for this file format" ∧
    (uploadFile parsers infer db uid filename content).1.jobs = db.jobs := by
  have hbe : (content == "") = false := by
    simp only [beq_eq_false_iff_ne, ne_eq]
    exact hne
  cases infer with
  | error e => simp [uploadFile, hbe, hdet]
  | ok inf =>
    have hact := activeSchemas_append_active db (buildInferredSchema filename inf) rfl
    have hd := hinf inf rfl
    simp [uploadFile, hbe, hdet, hact, hd]

/-- Witness for C4: no parsers registered, AI inference raising. -/
theorem upload_rejects_undetected_file_witness :
    (uploadFile [] (.error "ai down") emptyDB 7 "f.csv" "a,b").2 =
      .error "No parser found for this file format" ∧
    (uploadFile [] (.error "ai down") emptyDB 7 "f.csv" "a,b").1.jobs = emptyDB.jobs :=
  upload_rejects_undetected_file [] (.error "ai down") emptyDB 7 "f.csv" "a,b"
    (by decide) rfl (fun inf h => by cases h)

/-! ### C5 — the categorization phase is best-effort -/

/-- The chunks cover the list exactly. -/
theorem chunksOfGo_join (n : Nat) :
    ∀ (fuel : Nat) (l : List α), l.length ≤ fuel →
      (chunksOfGo n fuel l).flatten = l := by
  intro fuel
  induction fuel with
  | zero =>
    intro l hl
    cases l with
    | nil => rfl
    | cons a t => simp at hl
  | succ fuel ih =>
    intro l hl
    cases l with
    | nil => rfl
    | cons a t =>
      have hlen : (t.drop (n - 1)).length ≤ fuel := by
        simp only [List.length_drop]
        simp only [List.length_cons] at hl
        omega
      simp [chunksOfGo, ih _ hlen]

/-- Every chunk has between 1 and `n` elements. -/
theorem chunksOfGo_size (n : Nat) (hn : 1 ≤ n) :
    ∀ (fuel : Nat) (l : List α), l.length ≤ fuel →
      ∀ b ∈ chunksOfGo n fuel l, 1 ≤ b.length ∧ b.length ≤ n := by
  intro fuel
  induction fuel with
  | zero =>
    intro l hl b hb
    cases l with
    | nil => cases hb
    | cons a t => simp at hl
  | succ fuel ih =>
    intro l hl b hb
    cases l with
    | nil => cases hb
    | cons a t =>
      simp only [chunksOfGo, List.mem_cons] at hb
      rcases hb with hb | hb
      · subst hb
        constructor
        · simp
        · simp only [List.length_cons, List.length_take]
          omega
      · have hlen : (t.drop (n - 1)).length ≤ fuel := by
          simp only [List.length_drop]
          simp only [List.length_cons] at hl
          omega
        exact ih _ hlen b hb

/-- `chunksOf` covers the list. -/
theorem chunksOf_join (n : Nat) (l : List α) : (chunksOf n l).flatten = l :=
  chunksOfGo_join n l.length l le_rfl

/-- `chunksOf` chunk sizes. -/
theorem chunksOf_size (n : Nat) (hn : 1 ≤ n) (l : List α) :
    ∀ b ∈ chunksOf n l, 1 ≤ b.length ∧ b.length ≤ n :=
  chunksOfGo_size n hn l.length l le_rfl

/-- The batch loop never touches job rows. -/
theorem catBatchLoop_jobs (aiResults : List AIResult) :
    ∀ (l : List Nat) (i : Nat) (db : DB) (out out' : List BatchItem) (db' : DB),
      catBatchLoop aiResults i db out l = .ok (out', db') → db'.jobs = db.jobs := by
  intro l
  induction l with
  | nil =>
    intro i db out out' db' h
    simp only [catBatchLoop] at h
    cases h
    rfl
  | cons tid rest ih =>
    intro i db out out' db' h
    simp only [catBatchLoop] at h
    split at h
    · exact absurd h (by simp)
    · have hrec := ih _ _ _ _ _ h
      rw [hrec]
      split <;> split <;> (try split) <;> rfl

/-- `categorize_batch` never touches job rows. -/
theorem categorizeBatch_jobs (db : DB) (ids : List Nat)
    (provider : List TxnDictQ → Except String (List AIResult))
    (out : List BatchItem) (db' : DB)
    (h : categorizeBatch db ids provider = .ok (out, db')) : db'.jobs = db.jobs := by
  simp only [categorizeBatch] at h
  split at h
  · cases h; rfl
  · split at h
    · exact absurd h (by simp)
    · exact catBatchLoop_jobs _ _ _ _ _ _ _ h

/-- Updating a job rewrites exactly that job row (ids are preserved by
all the update functions used). -/
theorem findJob_updateJob (db : DB) (jid : Nat) (f : ImportJob → ImportJob)
    (hid : ∀ j, (f j).id = j.id) :
    (db.updateJob jid f).findJob jid = (db.findJob jid).map f := by
  show List.find? _ (db.jobs.map _) = (List.find? _ db.jobs).map f
  induction db.jobs with
  | nil => rfl
  | cons j t ih =>
    simp only [List.map_cons]
    by_cases hj : (j.id == jid) = true
    · rw [if_pos hj]
      have hfj : ((f j).id == jid) = true := by rw [hid]; exact hj
      simp only [List.find?_cons, hfj, hj]
      rfl
    · rw [if_neg hj]
      rw [Bool.not_eq_true] at hj
      simp only [List.find?_cons, hj]
      exact ih

/-- Jobs lists agree, so job lookups agree. -/
theorem findJob_congr {db db' : DB} (h : db'.jobs = db.jobs) (jid : Nat) :
    db'.findJob jid = db.findJob jid := by
  show List.find? _ db'.jobs = List.find? _ db.jobs
  rw [h]

/-- Each batch contributes exactly one progress commit or one warning. -/
theorem catTaskBatches_counts (jid : Nat)
    (provider : List TxnDictQ → Except String (List AIResult)) :
    ∀ (bs : List (List Nat)) (acc : CatLoopAcc),
      (catTaskBatches jid provider acc bs).commitsCategorized.length +
          (catTaskBatches jid provider acc bs).errors.length =
        acc.commitsCategorized.length + acc.errors.length + bs.length := by
  intro bs
  induction bs with
  | nil => intro acc; simp [catTaskBatches]
  | cons b bs ih =>
    intro acc
    cases hcb : categorizeBatch acc.db b provider with
    | error e =>
      simp only [catTaskBatches, hcb]
      rw [ih]
      simp only [List.length_append, List.length_cons, List.length_nil]
      omega
    | ok res =>
      obtain ⟨results, db'⟩ := res
      simp only [catTaskBatches, hcb]
      rw [ih]
      simp only [List.length_append, List.length_cons, List.length_nil]
      omega

/-- Invariant of the per-batch loop: the job row survives with status
CATEGORIZING and every status it commits is CATEGORIZING. -/
theorem catTaskBatches_inv (jid : Nat)
    (provider : List TxnDictQ → Except String (List AIResult)) :
    ∀ (bs : List (List Nat)) (acc : CatLoopAcc) (j : ImportJob),
      acc.db.findJob jid = some j → j.status = .categorizing →
      ∃ j', (catTaskBatches jid provider acc bs).db.findJob jid = some j' ∧
        j'.status = .categorizing ∧
        (∀ s ∈ (catTaskBatches jid provider acc bs).statusTrace,
            s ∈ acc.statusTrace ∨ s = .categorizing) := by
  intro bs
  induction bs with
  | nil =>
    intro acc j hfind hst
    exact ⟨j, hfind, hst, fun s hs => Or.inl hs⟩
  | cons b bs ih =>
    intro acc j hfind hst
    cases hcb : categorizeBatch acc.db b provider with
    | error e =>
      simp only [catTaskBatches, hcb]
      obtain ⟨j', h1, h2, h3⟩ :=
        ih ⟨acc.db, acc.categorized, acc.errors ++ [s!"Batch {acc.num}: {e}"],
            acc.num + 1, acc.statusTrace, acc.commitsCategorized⟩ j hfind hst
      exact ⟨j', h1, h2, fun s hs => h3 s hs⟩
    | ok res =>
      obtain ⟨results, db'⟩ := res
      simp only [catTaskBatches, hcb]
      have hjobs := categorizeBatch_jobs _ _ _ _ _ hcb
      have hfind' : db'.findJob jid = some j := by
        rw [findJob_congr hjobs]; exact hfind
      set cz := acc.categorized +
        (results.filter (fun r => r.categoryName != "Uncategorized")).length with hcz
      have hupd : (db'.updateJob jid
            (fun jj => { jj with categorizedRows := cz })).findJob jid =
          some { j with categorizedRows := cz } := by
        rw [findJob_updateJob db' jid (fun jj => { jj with categorizedRows := cz })
          (fun _ => rfl), hfind']
        rfl
      have hst' : ({ j with categorizedRows := cz } : ImportJob).status =
          ImportStatus.categorizing := hst
      obtain ⟨j', h1, h2, h3⟩ := ih
        ⟨db'.updateJob jid (fun jj => { jj with categorizedRows := cz }), cz,
         acc.errors, acc.num + 1,
         acc.statusTrace ++
           [(((db'.updateJob jid
                 (fun jj => { jj with categorizedRows := cz })).findJob jid).getD
               dummyJob).status],
         acc.commitsCategorized ++ [cz]⟩
        _ hupd hst'
      refine ⟨j', h1, h2, ?_⟩
      intro s hs
      rcases h3 s hs with hmem | hcat
      · simp only [List.mem_append, List.mem_singleton] at hmem
        rcases hmem with hmem | hmem
        · exact Or.inl hmem
        · refine Or.inr ?_
          rw [hmem, hupd]
          exact hst
      · exact Or.inr hcat

/-- Claim C5: however many per-batch failures occur, a categorization run
that is not skipped commits only CATEGORIZING/COMPLETED statuses (never
FAILED or PARTIALLY_FAILED) and ends with the job COMPLETED; ids are
processed in batches of at most 20 covering exactly the job's
uncategorized transactions, `categorized_rows` is committed once per
successful batch (one warning per failed batch), and when failures
occurred the error message reports only the first 5 of them. -/
theorem categorize_task_best_effort
    (db : DB) (jid : Nat) (importStatus : String)
    (provider : List TxnDictQ → Except String (List AIResult))
    (db' : DB) (out : CatTaskOutcome)
    (h : categorizeImportTask db (some jid) importStatus provider = .ok (db', out))
    (hns : out.skipped = false) :
    (∃ j, db'.findJob jid = some j ∧ j.status = .completed ∧ j.completedAt = true ∧
        (out.errors ≠ [] →
          j.errorMessage = some (catWarnMsg out.errors) ∧
          catWarnMsg out.errors =
            (s!"Categorization warnings ({out.errors.length} batches): " ++
              String.intercalate "; " (out.errors.take 5)))) ∧
    (∀ s ∈ out.statusTrace, s ≠ .failed ∧ s ≠ .partiallyFailed) ∧
    out.statusTrace.getLast? = some .completed ∧
    (∀ b ∈ out.batches, 1 ≤ b.length ∧ b.length ≤ 20) ∧
    (out.enteredPhase = true → ∃ uncat,
        db.categories.filter (fun c => c.name == "Uncategorized") = [uncat] ∧
        out.batches.flatten =
          (db.txns.filter (fun t =>
            t.importJobId == some jid && t.categoryId == some uncat.id)).map
            (fun t => t.id)) ∧
    out.commitsCategorized.length + out.errors.length = out.batches.length := by
  simp only [categorizeImportTask] at h
  split at h
  · -- import failed: skipped
    cases h
    cases hns
  · -- job lookup
    split at h
    · cases h
      cases hns
    · rename_i j0 hj0
      split at h
      · -- no "Uncategorized" category: straight to COMPLETED
        rename_i hcatfil
        cases h
        have hupd := findJob_updateJob db jid
          (fun j => { j with status := ImportStatus.completed, completedAt := true })
          (fun _ => rfl)
        rw [hj0] at hupd
        refine ⟨⟨_, hupd, rfl, rfl, fun hne => absurd rfl hne⟩, ?_, ?_, ?_, ?_, ?_⟩
        · intro s hs
          simp only [hupd, List.mem_singleton] at hs
          subst hs
          exact ⟨by simp, by simp⟩
        · simp [hupd]
        · intro b hb
          cases hb
        · intro hph
          cases hph
        · rfl
      · rename_i uncat restUncat hcatfil
        split at h
        · -- exactly one "Uncategorized" category
          rename_i hrest
          split at h
          · -- no uncategorized transactions: straight to COMPLETED
            rename_i htxns
            cases h
            have hupd := findJob_updateJob db jid
              (fun j => { j with status := ImportStatus.completed, completedAt := true })
              (fun _ => rfl)
            rw [hj0] at hupd
            refine ⟨⟨_, hupd, rfl, rfl, fun hne => absurd rfl hne⟩, ?_, ?_, ?_, ?_, ?_⟩
            · intro s hs
              simp only [hupd, List.mem_singleton] at hs
              subst hs
              exact ⟨by simp, by simp⟩
            · simp [hupd]
            · intro b hb
              cases hb
            · intro hph
              cases hph
            · rfl
          · -- the categorization phase proper
            rename_i htxns
            cases h
            set uncTxns := db.txns.filter (fun t =>
              t.importJobId == some jid && t.categoryId == some uncat.id) with huncTxns
            set db1 := db.updateJob jid (fun j =>
              { j with status := ImportStatus.categorizing,
                       uncategorizedRows := uncTxns.length }) with hdb1
            set batches := chunksOf 20 (uncTxns.map (fun t => t.id)) with hbatches
            set acc := catTaskBatches jid provider
              ⟨db1, 0, [], 1, [((db1.findJob jid).getD dummyJob).status], []⟩
              batches with hacc
            have hupd1 : db1.findJob jid =
                some { j0 with status := ImportStatus.categorizing,
                               uncategorizedRows := uncTxns.length } := by
              rw [hdb1, findJob_updateJob db jid
                (fun j => { j with status := ImportStatus.categorizing,
                                   uncategorizedRows := uncTxns.length })
                (fun _ => rfl), hj0]
              rfl
            obtain ⟨j', hj', hst', htr⟩ :=
              catTaskBatches_inv jid provider batches
                ⟨db1, 0, [], 1, [((db1.findJob jid).getD dummyJob).status], []⟩
                _ hupd1 rfl
            rw [← hacc] at hj' htr
            have hcounts := catTaskBatches_counts jid provider batches
              ⟨db1, 0, [], 1, [((db1.findJob jid).getD dummyJob).status], []⟩
            rw [← hacc] at hcounts
            have hupd2 := findJob_updateJob acc.db jid
              (fun j =>
                { j with
                    status := ImportStatus.completed
                    completedAt := true
                    errorMessage :=
                      if acc.errors.isEmpty then j.errorMessage
                      else some (catWarnMsg acc.errors) })
              (fun _ => rfl)
            rw [hj'] at hupd2
            refine ⟨⟨_, hupd2, rfl, rfl, ?_⟩, ?_, ?_, ?_, ?_, ?_⟩
            · intro hne
              refine ⟨?_, by simp [catWarnMsg]⟩
              show (if acc.errors.isEmpty then j'.errorMessage
                    else some (catWarnMsg acc.errors)) = _
              rw [if_neg (by simpa [List.isEmpty_iff] using hne)]
            · intro s hs
              simp only [List.mem_append, List.mem_singleton] at hs
              rcases hs with hs | hs
              · rcases htr s hs with hs0 | hs0
                · simp only [hupd1, List.mem_singleton] at hs0
                  subst hs0
                  exact ⟨by simp, by simp⟩
                · subst hs0
                  exact ⟨by simp, by simp⟩
              · rw [hs, hupd2]
                exact ⟨by simp, by simp⟩
            · rw [List.getLast?_concat, hupd2]
              rfl
            · intro b hb
              exact chunksOf_size 20 (by decide) _ b hb
            · intro _
              refine ⟨uncat, ?_, chunksOf_join 20 _⟩
              rw [hcatfil, List.isEmpty_iff.mp hrest]
            · simpa using hcounts
        · cases h

/-- Witness for C5: one uncategorized transaction, a provider whose batch
call always raises — the job still completes, with one warning. -/
theorem categorize_task_best_effort_witness :
    ∃ db' out j,
      categorizeImportTask catTaskDB (some 55) "processing" failingProvider =
        .ok (db', out) ∧
      db'.findJob 55 = some j ∧ j.status = .completed ∧
      out.errors.length = 1 := by
  have key := categorize_task_best_effort catTaskDB 55 "processing"
    failingProvider _ _ rfl (by decide)
  obtain ⟨⟨j, hj, hst, _, _⟩, _⟩ := key
  exact ⟨_, _, j, rfl, hj, hst, by decide⟩

/-! ### Lemmas on the row loop (shared by C1, C2 and C10) -/

/-- Case analysis of `_get_or_create_institution`: unique lookup hit or
creation; other tables untouched. -/
theorem getOrCreateInstitution_spec {db : DB} {name : String}
    {inst : Institution} {db' : DB}
    (h : getOrCreateInstitution db name = .ok (inst, db')) :
    db'.accounts = db.accounts ∧ db'.categories = db.categories ∧
    db'.txns = db.txns ∧ db'.jobs = db.jobs ∧
    ((db.institutions.filter (fun i => i.name == name) = [inst] ∧ db' = db) ∨
     (db.institutions.filter (fun i => i.name == name) = [] ∧
      inst = ⟨db.nextId, name⟩ ∧
      db'.institutions = db.institutions ++ [inst] ∧
      db'.nextId = db.nextId + 1)) := by
  simp only [getOrCreateInstitution] at h
  split at h
  · rename_i hfil
    cases h
    exact ⟨rfl, rfl, rfl, rfl, Or.inr ⟨hfil, rfl, rfl, rfl⟩⟩
  · rename_i i hfil
    cases h
    exact ⟨rfl, rfl, rfl, rfl, Or.inl ⟨hfil, rfl⟩⟩
  · cases h

/-- Case analysis of a successful institution resolution: cache hit, or
lookup/creation through `_get_or_create_institution`; all other state is
untouched. -/
theorem resolveInst_spec {st : RunState} {name : String} {inst : Institution}
    {st' : RunState} (h : resolveInst st name = .ok (inst, st')) :
    st'.acctCache = st.acctCache ∧ st'.catCache = st.catCache ∧
    st'.imported = st.imported ∧ st'.duplicates = st.duplicates ∧
    st'.db.accounts = st.db.accounts ∧ st'.db.categories = st.db.categories ∧
    st'.db.txns = st.db.txns ∧ st'.db.jobs = st.db.jobs ∧
    ((∃ e, st.instCache.find? (fun e => e.1 == name) = some e ∧ e.2 = inst ∧
       st' = st) ∨
     (st.instCache.find? (fun e => e.1 == name) = none ∧
      st'.instCache = st.instCache ++ [(name, inst)] ∧
      ((st.db.institutions.filter (fun i => i.name == name) = [inst] ∧
        st'.db = st.db) ∨
       (st.db.institutions.filter (fun i => i.name == name) = [] ∧
        inst = ⟨st.db.nextId, name⟩ ∧
        st'.db.institutions = st.db.institutions ++ [inst] ∧
        st'.db.nextId = st.db.nextId + 1)))) := by
  simp only [resolveInst] at h
  split at h
  · rename_i e he
    cases h
    exact ⟨rfl, rfl, rfl, rfl, rfl, rfl, rfl, rfl, Or.inl ⟨e, he, rfl, rfl⟩⟩
  · rename_i hmiss
    cases hgoc : getOrCreateInstitution st.db name with
    | error e => rw [hgoc] at h; cases h
    | ok p =>
      obtain ⟨i2, db2⟩ := p
      rw [hgoc] at h
      cases h
      obtain ⟨ha, hc, ht, hj, hcase⟩ := getOrCreateInstitution_spec hgoc
      exact ⟨rfl, rfl, rfl, rfl, ha, hc, ht, hj, Or.inr ⟨hmiss, rfl, hcase⟩⟩

/-- Case analysis of `_get_or_create_account`. -/
theorem getOrCreateAccount_spec {db : DB} {inst : Institution} {name : String}
    {accountType : String} {last4 : Option String} {userId : Nat}
    {acct : Account} {db' : DB}
    (h : getOrCreateAccount db inst name accountType last4 userId = .ok (acct, db')) :
    db'.institutions = db.institutions ∧ db'.categories = db.categories ∧
    db'.txns = db.txns ∧ db'.jobs = db.jobs ∧
    ((db.accounts.filter (acctMatches inst.id name (last4Filter last4)) = [acct] ∧
      db' = db) ∨
     (db.accounts.filter (acctMatches inst.id name (last4Filter last4)) = [] ∧
      acct = { id := db.nextId, userId := some userId, institutionId := inst.id,
               name := name,
               accountType := (AccountType.ofValue accountType).getD .checking,
               accountNumberLast4 := last4 } ∧
      db'.accounts = db.accounts ++ [acct] ∧
      db'.nextId = db.nextId + 1)) := by
  simp only [getOrCreateAccount] at h
  split at h
  · rename_i hfil
    cases h
    exact ⟨rfl, rfl, rfl, rfl, Or.inr ⟨hfil, rfl, rfl, rfl⟩⟩
  · rename_i a hfil
    cases h
    exact ⟨rfl, rfl, rfl, rfl, Or.inl ⟨hfil, rfl⟩⟩
  · cases h

/-- Case analysis of a successful account resolution. -/
theorem resolveAcct_spec {userId : Nat} {st : RunState} {inst : Institution}
    {r : RawRow} {acct : Account} {st' : RunState}
    (h : resolveAcct userId st inst r = .ok (acct, st')) :
    st'.instCache = st.instCache ∧ st'.catCache = st.catCache ∧
    st'.imported = st.imported ∧ st'.duplicates = st.duplicates ∧
    st'.db.institutions = st.db.institutions ∧
    st'.db.categories = st.db.categories ∧
    st'.db.txns = st.db.txns ∧ st'.db.jobs = st.db.jobs ∧
    ((∃ e, st.acctCache.find? (fun e => e.1 == acctCacheKey r) = some e ∧
       e.2 = acct ∧ st' = st) ∨
     (st.acctCache.find? (fun e => e.1 == acctCacheKey r) = none ∧
      st'.acctCache = st.acctCache ++ [(acctCacheKey r, acct)] ∧
      ((st.db.accounts.filter
          (acctMatches inst.id r.accountName (last4Filter r.accountNumberLast4)) =
            [acct] ∧ st'.db = st.db) ∨
       (st.db.accounts.filter
          (acctMatches inst.id r.accountName (last4Filter r.accountNumberLast4)) =
            [] ∧
        acct = { id := st.db.nextId, userId := some userId,
                 institutionId := inst.id, name := r.accountName,
                 accountType := (AccountType.ofValue r.accountType).getD .checking,
                 accountNumberLast4 := r.accountNumberLast4 } ∧
        st'.db.accounts = st.db.accounts ++ [acct] ∧
        st'.db.nextId = st.db.nextId + 1)))) := by
  simp only [resolveAcct] at h
  split at h
  · rename_i e he
    cases h
    exact ⟨rfl, rfl, rfl, rfl, rfl, rfl, rfl, rfl, Or.inl ⟨e, he, rfl, rfl⟩⟩
  · rename_i hmiss
    cases hgoc : getOrCreateAccount st.db inst r.accountName r.accountType
      r.accountNumberLast4 userId with
    | error e => rw [hgoc] at h; cases h
    | ok p =>
      obtain ⟨a2, db2⟩ := p
      rw [hgoc] at h
      cases h
      obtain ⟨hi, hc, ht, hj, hcase⟩ := getOrCreateAccount_spec hgoc
      exact ⟨rfl, rfl, rfl, rfl, hi, hc, ht, hj, Or.inr ⟨hmiss, rfl, hcase⟩⟩

/-- Case analysis of `_get_or_create_category`. -/
theorem getOrCreateCategory_spec {db : DB} {name : String}
    {cat : Category} {db' : DB}
    (h : getOrCreateCategory db name = .ok (cat, db')) :
    db'.institutions = db.institutions ∧ db'.accounts = db.accounts ∧
    db'.txns = db.txns ∧ db'.jobs = db.jobs ∧
    ((db.categories.filter (fun c => c.name == name) = [cat] ∧ db' = db) ∨
     (db.categories.filter (fun c => c.name == name) = [] ∧
      cat = ⟨db.nextId, name, true⟩ ∧
      db'.categories = db.categories ++ [cat] ∧
      db'.nextId = db.nextId + 1)) := by
  simp only [getOrCreateCategory] at h
  split at h
  · rename_i hfil
    cases h
    exact ⟨rfl, rfl, rfl, rfl, Or.inr ⟨hfil, rfl, rfl, rfl⟩⟩
  · rename_i c hfil
    cases h
    exact ⟨rfl, rfl, rfl, rfl, Or.inl ⟨hfil, rfl⟩⟩
  · cases h

/-- Case analysis of a successful category resolution. -/
theorem resolveCat_spec {st : RunState} {name : String} {cat : Category}
    {st' : RunState} (h : resolveCat st name = .ok (cat, st')) :
    st'.instCache = st.instCache ∧ st'.acctCache = st.acctCache ∧
    st'.imported = st.imported ∧ st'.duplicates = st.duplicates ∧
    st'.db.institutions = st.db.institutions ∧
    st'.db.accounts = st.db.accounts ∧
    st'.db.txns = st.db.txns ∧ st'.db.jobs = st.db.jobs ∧
    ((∃ e, st.catCache.find? (fun e => e.1 == name) = some e ∧ e.2 = cat ∧
       st' = st) ∨
     (st.catCache.find? (fun e => e.1 == name) = none ∧
      st'.catCache = st.catCache ++ [(name, cat)] ∧
      ((st.db.categories.filter (fun c => c.name == name) = [cat] ∧
        st'.db = st.db) ∨
       (st.db.categories.filter (fun c => c.name == name) = [] ∧
        cat = ⟨st.db.nextId, name, true⟩ ∧
        st'.db.categories = st.db.categories ++ [cat] ∧
        st'.db.nextId = st.db.nextId + 1)))) := by
  simp only [resolveCat] at h
  split at h
  · rename_i e he
    cases h
    exact ⟨rfl, rfl, rfl, rfl, rfl, rfl, rfl, rfl, Or.inl ⟨e, he, rfl, rfl⟩⟩
  · rename_i hmiss
    cases hgoc : getOrCreateCategory st.db name with
    | error e => rw [hgoc] at h; cases h
    | ok p =>
      obtain ⟨c2, db2⟩ := p
      rw [hgoc] at h
      cases h
      obtain ⟨hi, ha, ht, hj, hcase⟩ := getOrCreateCategory_spec hgoc
      exact ⟨rfl, rfl, rfl, rfl, hi, ha, ht, hj, Or.inr ⟨hmiss, rfl, hcase⟩⟩

/-- `DbExt` is reflexive. -/
theorem DbExt.rfl' (d : DB) : DbExt d d :=
  ⟨⟨[], by simp⟩, ⟨[], by simp⟩, ⟨[], by simp⟩, ⟨[], by simp⟩⟩

/-- `DbExt` is transitive. -/
theorem DbExt.trans' {a b c : DB} (h1 : DbExt a b) (h2 : DbExt b c) : DbExt a c := by
  obtain ⟨⟨i1, hi1⟩, ⟨a1, ha1⟩, ⟨c1, hc1⟩, ⟨t1, ht1⟩⟩ := h1
  obtain ⟨⟨i2, hi2⟩, ⟨a2, ha2⟩, ⟨c2, hc2⟩, ⟨t2, ht2⟩⟩ := h2
  exact ⟨⟨i1 ++ i2, by simp [hi2, hi1]⟩, ⟨a1 ++ a2, by simp [ha2, ha1]⟩,
         ⟨c1 ++ c2, by simp [hc2, hc1]⟩, ⟨t1 ++ t2, by simp [ht2, ht1]⟩⟩

/-- The complete case analysis of one successful row step. -/
theorem step_spec {userId jobId : Nat} {st : RunState} {r : RawRow}
    {st' : RunState} (h : step userId jobId st r = .ok st') :
    ∃ inst stA acct stB cat stC txnDate originalDate,
      resolveInst st r.institutionName = .ok (inst, stA) ∧
      resolveAcct userId stA inst r = .ok (acct, stB) ∧
      resolveCat stB (effCatName r) = .ok (cat, stC) ∧
      parseIsoDate r.date = .ok txnDate ∧
      parseOriginalDate r.originalDate = .ok originalDate ∧
      ((isDuplicate stC.db acct.id txnDate r.amountCents r.description = true ∧
        st' = { stC with duplicates := stC.duplicates + 1 }) ∨
       (isDuplicate stC.db acct.id txnDate r.amountCents r.description = false ∧
        st' = { stC with
                db := { stC.db with
                        txns := stC.db.txns ++
                          [{ id := stC.db.nextId, accountId := acct.id,
                             date := txnDate, originalDate := originalDate,
                             amountCents := r.amountCents,
                             description := r.description,
                             originalDescription := r.originalDescription,
                             merchantName := r.merchantName,
                             categoryId := some cat.id,
                             customName := r.customName, note := r.note,
                             isTransfer := r.isTransfer,
                             isTaxDeductible := r.isTaxDeductible, tags := r.tags,
                             importJobId := some jobId }],
                        nextId := stC.db.nextId + 1 },
                imported := stC.imported + 1 })) := by
  simp only [step, bind, Except.bind] at h
  cases h1 : resolveInst st r.institutionName with
  | error e => rw [h1] at h; cases h
  | ok p1 =>
    obtain ⟨inst, stA⟩ := p1
    rw [h1] at h
    dsimp only at h
    cases h2 : resolveAcct userId stA inst r with
    | error e => rw [h2] at h; cases h
    | ok p2 =>
      obtain ⟨acct, stB⟩ := p2
      rw [h2] at h
      dsimp only at h
      cases h3 : resolveCat stB (effCatName r) with
      | error e => rw [h3] at h; cases h
      | ok p3 =>
        obtain ⟨cat, stC⟩ := p3
        rw [h3] at h
        dsimp only at h
        cases h4 : parseIsoDate r.date with
        | error e => rw [h4] at h; cases h
        | ok txnDate =>
          rw [h4] at h
          dsimp only at h
          cases h5 : parseOriginalDate r.originalDate with
          | error e => rw [h5] at h; cases h
          | ok originalDate =>
            rw [h5] at h
            dsimp only at h
            refine ⟨inst, stA, acct, stB, cat, stC, txnDate, originalDate,
              rfl, h2, h3, rfl, rfl, ?_⟩
            cases h6 : isDuplicate stC.db acct.id txnDate r.amountCents
              r.description with
            | true =>
              rw [if_pos h6] at h
              simp only [pure, Except.pure] at h
              cases h
              exact Or.inl ⟨rfl, rfl⟩
            | false =>
              rw [if_neg (by simp [h6])] at h
              simp only [pure, Except.pure] at h
              cases h
              exact Or.inr ⟨rfl, rfl⟩

/-- Entity-table growth and job preservation of institution resolution. -/
theorem resolveInst_ext {st : RunState} {name : String} {inst : Institution}
    {st' : RunState} (h : resolveInst st name = .ok (inst, st')) :
    DbExt st.db st'.db ∧ st'.db.jobs = st.db.jobs := by
  obtain ⟨_, _, _, _, ha, hc, ht, hj, hcase⟩ := resolveInst_spec h
  refine ⟨⟨?_, ⟨[], by simp [ha]⟩, ⟨[], by simp [hc]⟩, ⟨[], by simp [ht]⟩⟩, hj⟩
  rcases hcase with ⟨e, _, _, hst⟩ | ⟨_, _, hsub⟩
  · subst hst; exact ⟨[], by simp⟩
  · rcases hsub with ⟨_, hdb⟩ | ⟨_, _, hinst, _⟩
    · rw [hdb]; exact ⟨[], by simp⟩
    · exact ⟨[inst], hinst⟩

/-- Entity-table growth and job preservation of account resolution. -/
theorem resolveAcct_ext {userId : Nat} {st : RunState} {inst : Institution}
    {r : RawRow} {acct : Account} {st' : RunState}
    (h : resolveAcct userId st inst r = .ok (acct, st')) :
    DbExt st.db st'.db ∧ st'.db.jobs = st.db.jobs := by
  obtain ⟨_, _, _, _, hi, hc, ht, hj, hcase⟩ := resolveAcct_spec h
  refine ⟨⟨⟨[], by simp [hi]⟩, ?_, ⟨[], by simp [hc]⟩, ⟨[], by simp [ht]⟩⟩, hj⟩
  rcases hcase with ⟨e, _, _, hst⟩ | ⟨_, _, hsub⟩
  · subst hst; exact ⟨[], by simp⟩
  · rcases hsub with ⟨_, hdb⟩ | ⟨_, _, hacct, _⟩
    · rw [hdb]; exact ⟨[], by simp⟩
    · exact ⟨[acct], hacct⟩

/-- Entity-table growth and job preservation of category resolution. -/
theorem resolveCat_ext {st : RunState} {name : String} {cat : Category}
    {st' : RunState} (h : resolveCat st name = .ok (cat, st')) :
    DbExt st.db st'.db ∧ st'.db.jobs = st.db.jobs := by
  obtain ⟨_, _, _, _, hi, ha, ht, hj, hcase⟩ := resolveCat_spec h
  refine ⟨⟨⟨[], by simp [hi]⟩, ⟨[], by simp [ha]⟩, ?_, ⟨[], by simp [ht]⟩⟩, hj⟩
  rcases hcase with ⟨e, _, _, hst⟩ | ⟨_, _, hsub⟩
  · subst hst; exact ⟨[], by simp⟩
  · rcases hsub with ⟨_, hdb⟩ | ⟨_, _, hcat, _⟩
    · rw [hdb]; exact ⟨[], by simp⟩
    · exact ⟨[cat], hcat⟩

/-- One step only appends to the entity tables and never touches jobs. -/
theorem step_ext {userId jobId : Nat} {st : RunState} {r : RawRow}
    {st' : RunState} (h : step userId jobId st r = .ok st') :
    DbExt st.db st'.db ∧ st'.db.jobs = st.db.jobs := by
  obtain ⟨inst, stA, acct, stB, cat, stC, txnDate, originalDate,
    h1, h2, h3, _, _, hend⟩ := step_spec h
  obtain ⟨e1, j1⟩ := resolveInst_ext h1
  obtain ⟨e2, j2⟩ := resolveAcct_ext h2
  obtain ⟨e3, j3⟩ := resolveCat_ext h3
  have eAC := DbExt.trans' (DbExt.trans' e1 e2) e3
  have jAC : stC.db.jobs = st.db.jobs := by rw [j3, j2, j1]
  rcases hend with ⟨_, hst⟩ | ⟨_, hst⟩
  · subst hst; exact ⟨eAC, jAC⟩
  · subst hst
    refine ⟨DbExt.trans' eAC ⟨⟨[], by simp⟩, ⟨[], by simp⟩, ⟨[], by simp⟩,
      ⟨_, rfl⟩⟩, jAC⟩

/-- One step counts the row exactly once: as a duplicate or as imported. -/
theorem step_counts {userId jobId : Nat} {st : RunState} {r : RawRow}
    {st' : RunState} (h : step userId jobId st r = .ok st') :
    (st'.imported = st.imported ∧ st'.duplicates = st.duplicates + 1) ∨
    (st'.imported = st.imported + 1 ∧ st'.duplicates = st.duplicates) := by
  obtain ⟨inst, stA, acct, stB, cat, stC, txnDate, originalDate,
    h1, h2, h3, _, _, hend⟩ := step_spec h
  obtain ⟨_, _, i1, d1, _⟩ := resolveInst_spec h1
  obtain ⟨_, _, i2, d2, _⟩ := resolveAcct_spec h2
  obtain ⟨_, _, i3, d3, _⟩ := resolveCat_spec h3
  have hi : stC.imported = st.imported := by rw [i3, i2, i1]
  have hd : stC.duplicates = st.duplicates := by rw [d3, d2, d1]
  rcases hend with ⟨_, hst⟩ | ⟨_, hst⟩
  · subst hst; exact Or.inl ⟨hi, by rw [hd]⟩
  · subst hst; exact Or.inr ⟨by rw [hi], hd⟩

/-- One step only appends to the memoization caches. -/
theorem step_cacheMono {userId jobId : Nat} {st : RunState} {r : RawRow}
    {st' : RunState} (h : step userId jobId st r = .ok st') :
    (∀ e ∈ st.instCache, e ∈ st'.instCache) ∧
    (∀ e ∈ st.acctCache, e ∈ st'.acctCache) ∧
    (∀ e ∈ st.catCache, e ∈ st'.catCache) := by
  obtain ⟨inst, stA, acct, stB, cat, stC, txnDate, originalDate,
    h1, h2, h3, _, _, hend⟩ := step_spec h
  obtain ⟨a1, c1, _, _, _, _, _, _, hcase1⟩ := resolveInst_spec h1
  obtain ⟨i2, c2, _, _, _, _, _, _, hcase2⟩ := resolveAcct_spec h2
  obtain ⟨i3, a3, _, _, _, _, _, _, hcase3⟩ := resolveCat_spec h3
  have hICm : ∀ e ∈ st.instCache, e ∈ stC.instCache := by
    intro e he
    rw [i3, i2]
    rcases hcase1 with ⟨_, _, _, hst⟩ | ⟨_, hcache, _⟩
    · subst hst; exact he
    · rw [hcache]; exact List.mem_append_left _ he
  have hACm : ∀ e ∈ st.acctCache, e ∈ stC.acctCache := by
    intro e he
    rw [a3]
    rcases hcase2 with ⟨_, _, _, hst⟩ | ⟨_, hcache, _⟩
    · subst hst; rw [a1]; exact he
    · rw [hcache, a1]; exact List.mem_append_left _ he
  have hCCm : ∀ e ∈ st.catCache, e ∈ stC.catCache := by
    intro e he
    rcases hcase3 with ⟨_, _, _, hst⟩ | ⟨_, hcache, _⟩
    · subst hst; rw [c2, c1]; exact he
    · rw [hcache, c2, c1]; exact List.mem_append_left _ he
  rcases hend with ⟨_, hst⟩ | ⟨_, hst⟩ <;> subst hst <;>
    exact ⟨hICm, hACm, hCCm⟩

/-- Filtering past an appended singleton. -/
theorem filter_append_singleton {α : Type} (p : α → Bool) (l : List α) (a : α) :
    (l ++ [a]).filter p = l.filter p ++ if p a then [a] else [] := by
  rw [List.filter_append]
  congr 1
  by_cases hp : p a = true
  · simp [List.filter, hp]
  · simp only [Bool.not_eq_true] at hp
    simp [List.filter, hp]

/-- Institution resolution preserves cache soundness. -/
theorem resolveInst_inv {st : RunState} {name : String} {inst : Institution}
    {st' : RunState} (h : resolveInst st name = .ok (inst, st'))
    (hinv : CacheInv st) : CacheInv st' := by
  obtain ⟨ha, hc, _, _, hacc, hcat, _, _, hcase⟩ := resolveInst_spec h
  obtain ⟨hinvI, hinvC, hinvA⟩ := hinv
  rcases hcase with ⟨e, _, _, hst⟩ | ⟨hmiss, hcache, hsub⟩
  · subst hst; exact ⟨hinvI, hinvC, hinvA⟩
  · rcases hsub with ⟨hfil, hdb⟩ | ⟨hfil, hinst, hinsts, _⟩
    · refine ⟨?_, ?_, ?_⟩
      · intro e he
        rw [hcache] at he
        rcases List.mem_append.mp he with he | he
        · rw [hdb]; exact hinvI e he
        · simp only [List.mem_singleton] at he
          subst he
          rw [hdb]; exact hfil
      · intro e he
        rw [hc] at he
        rw [hcat]; exact hinvC e he
      · intro e he
        rw [ha] at he
        rw [hacc]; exact hinvA e he
    · refine ⟨?_, ?_, ?_⟩
      · intro e he
        rw [hcache] at he
        rw [hinsts, filter_append_singleton]
        rcases List.mem_append.mp he with he | he
        · have hold := hinvI e he
          rw [hold]
          have : (inst.name == e.1) = false := by
            rw [hinst]
            simp only [beq_eq_false_iff_ne, ne_eq]
            intro heq
            rw [← heq] at hold
            rw [hfil] at hold
            cases hold
          simp [this]
        · simp only [List.mem_singleton] at he
          subst he
          rw [hfil]
          have : (inst.name == name) = true := by rw [hinst]; simp
          simp [this]
      · intro e he
        rw [hc] at he
        rw [hcat]; exact hinvC e he
      · intro e he
        rw [ha] at he
        rw [hacc]; exact hinvA e he

/-- Account resolution preserves cache soundness. -/
theorem resolveAcct_inv {userId : Nat} {st : RunState} {inst : Institution}
    {r : RawRow} {acct : Account} {st' : RunState}
    (h : resolveAcct userId st inst r = .ok (acct, st'))
    (hinv : CacheInv st) : CacheInv st' := by
  obtain ⟨hi, hc, _, _, hins, hcat, _, _, hcase⟩ := resolveAcct_spec h
  obtain ⟨hinvI, hinvC, hinvA⟩ := hinv
  rcases hcase with ⟨e, _, _, hst⟩ | ⟨hmiss, hcache, hsub⟩
  · subst hst; exact ⟨hinvI, hinvC, hinvA⟩
  · rcases hsub with ⟨hfil, hdb⟩ | ⟨hfil, hacct, haccts, _⟩
    · refine ⟨?_, ?_, ?_⟩
      · intro e he
        rw [hi] at he
        rw [hins]; exact hinvI e he
      · intro e he
        rw [hc] at he
        rw [hcat]; exact hinvC e he
      · intro e he
        rw [hcache] at he
        rw [hdb]
        rcases List.mem_append.mp he with he | he
        · exact hinvA e he
        · simp only [List.mem_singleton] at he
          subst he
          have : acct ∈ st.db.accounts.filter
              (acctMatches inst.id r.accountName
                (last4Filter r.accountNumberLast4)) := by
            rw [hfil]; exact List.mem_singleton_self _
          exact (List.mem_filter.mp this).1
    · refine ⟨?_, ?_, ?_⟩
      · intro e he
        rw [hi] at he
        rw [hins]; exact hinvI e he
      · intro e he
        rw [hc] at he
        rw [hcat]; exact hinvC e he
      · intro e he
        rw [hcache] at he
        rw [haccts]
        rcases List.mem_append.mp he with he | he
        · exact List.mem_append_left _ (hinvA e he)
        · simp only [List.mem_singleton] at he
          subst he
          exact List.mem_append_right _ (List.mem_singleton_self _)

/-- Category resolution preserves cache soundness. -/
theorem resolveCat_inv {st : RunState} {name : String} {cat : Category}
    {st' : RunState} (h : resolveCat st name = .ok (cat, st'))
    (hinv : CacheInv st) : CacheInv st' := by
  obtain ⟨hi, ha, _, _, hins, hacc, _, _, hcase⟩ := resolveCat_spec h
  obtain ⟨hinvI, hinvC, hinvA⟩ := hinv
  rcases hcase with ⟨e, _, _, hst⟩ | ⟨hmiss, hcache, hsub⟩
  · subst hst; exact ⟨hinvI, hinvC, hinvA⟩
  · rcases hsub with ⟨hfil, hdb⟩ | ⟨hfil, hcat, hcats, _⟩
    · refine ⟨?_, ?_, ?_⟩
      · intro e he
        rw [hi] at he
        rw [hins]; exact hinvI e he
      · intro e he
        rw [hcache] at he
        rcases List.mem_append.mp he with he | he
        · rw [hdb]; exact hinvC e he
        · simp only [List.mem_singleton] at he
          subst he
          rw [hdb]; exact hfil
      · intro e he
        rw [ha] at he
        rw [hacc]; exact hinvA e he
    · refine ⟨?_, ?_, ?_⟩
      · intro e he
        rw [hi] at he
        rw [hins]; exact hinvI e he
      · intro e he
        rw [hcache] at he
        rw [hcats, filter_append_singleton]
        rcases List.mem_append.mp he with he | he
        · have hold := hinvC e he
          rw [hold]
          have : (cat.name == e.1) = false := by
            rw [hcat]
            simp only [beq_eq_false_iff_ne, ne_eq]
            intro heq
            rw [← heq] at hold
            rw [hfil] at hold
            cases hold
          simp [this]
        · simp only [List.mem_singleton] at he
          subst he
          rw [hfil]
          have : (cat.name == name) = true := by rw [hcat]; simp
          simp [this]
      · intro e he
        rw [ha] at he
        rw [hacc]; exact hinvA e he

/-- One row step preserves cache soundness. -/
theorem step_inv {userId jobId : Nat} {st : RunState} {r : RawRow}
    {st' : RunState} (h : step userId jobId st r = .ok st')
    (hinv : CacheInv st) : CacheInv st' := by
  obtain ⟨inst, stA, acct, stB, cat, stC, txnDate, originalDate,
    h1, h2, h3, _, _, hend⟩ := step_spec h
  have hC := resolveCat_inv h3 (resolveAcct_inv h2 (resolveInst_inv h1 hinv))
  obtain ⟨hI, hCt, hA⟩ := hC
  rcases hend with ⟨_, hst⟩ | ⟨_, hst⟩ <;> subst hst
  · exact ⟨hI, hCt, hA⟩
  · exact ⟨fun e he => hI e he, fun e he => hCt e he, fun e he => hA e he⟩

/-- Combined facts about a successful row loop: append-only growth, job
preservation, cache monotonicity, exact counting, duplicate monotonicity
and cache-soundness preservation. -/
theorem foldRows_facts {userId jobId : Nat} :
    ∀ (rows : List RawRow) (st stF : RunState),
      foldRows userId jobId st rows = .ok stF →
      DbExt st.db stF.db ∧ stF.db.jobs = st.db.jobs ∧
      (∀ e ∈ st.instCache, e ∈ stF.instCache) ∧
      (∀ e ∈ st.acctCache, e ∈ stF.acctCache) ∧
      (∀ e ∈ st.catCache, e ∈ stF.catCache) ∧
      stF.imported + stF.duplicates = st.imported + st.duplicates + rows.length ∧
      st.duplicates ≤ stF.duplicates ∧
      (CacheInv st → CacheInv stF) := by
  intro rows
  induction rows with
  | nil =>
    intro st stF h
    cases h
    exact ⟨DbExt.rfl' _, rfl, fun e he => he, fun e he => he, fun e he => he,
      rfl, le_refl _, id⟩
  | cons r rest ih =>
    intro st stF h
    simp only [foldRows] at h
    cases hstep : step userId jobId st r with
    | error e => rw [hstep] at h; cases h
    | ok st1 =>
      rw [hstep] at h
      obtain ⟨hext, hjobs, hmi, hma, hmc, hcnt, hdup, hinv⟩ := ih st1 stF h
      obtain ⟨hext0, hjobs0⟩ := step_ext hstep
      obtain ⟨hmi0, hma0, hmc0⟩ := step_cacheMono hstep
      have hcnt0 := step_counts hstep
      refine ⟨DbExt.trans' hext0 hext, by rw [hjobs, hjobs0],
        fun e he => hmi e (hmi0 e he), fun e he => hma e (hma0 e he),
        fun e he => hmc e (hmc0 e he), ?_, ?_,
        fun hi => hinv (step_inv hstep hi)⟩
      · simp only [List.length_cons]
        rcases hcnt0 with ⟨hi', hd'⟩ | ⟨hi', hd'⟩ <;> rw [hi', hd'] at hcnt <;> omega
      · rcases hcnt0 with ⟨_, hd'⟩ | ⟨_, hd'⟩ <;> rw [hd'] at hdup <;> omega

/-- The category a successful resolution returns is stored and carries
the requested name. -/
theorem resolveCat_found {st : RunState} {name : String} {cat : Category}
    {st' : RunState} (h : resolveCat st name = .ok (cat, st'))
    (hinv : CacheInv st) : cat ∈ st'.db.categories ∧ cat.name = name := by
  obtain ⟨_, _, _, _, _, _, _, _, hcase⟩ := resolveCat_spec h
  rcases hcase with ⟨e, hfind, hecat, hst⟩ | ⟨hmiss, hcache, hsub⟩
  · have hp := List.find?_some hfind
    have hkey : e.1 = name := by simpa using hp
    have hval := hinv.2.1 e (List.mem_of_find?_eq_some hfind)
    have hmem : e.2 ∈ st.db.categories.filter (fun c => c.name == e.1) := by
      rw [hval]; exact List.mem_singleton_self _
    obtain ⟨hmem', hname⟩ := List.mem_filter.mp hmem
    rw [hst, ← hecat]
    exact ⟨hmem', by rw [← hkey]; simpa using hname⟩
  · rcases hsub with ⟨hfil, hdb⟩ | ⟨hfil, hcat, hcats, _⟩
    · have hmem : cat ∈ st.db.categories.filter (fun c => c.name == name) := by
        rw [hfil]; exact List.mem_singleton_self _
      obtain ⟨hmem', hname⟩ := List.mem_filter.mp hmem
      rw [hdb]
      exact ⟨hmem', by simpa using hname⟩
    · subst hcat
      rw [hcats]
      exact ⟨List.mem_append_right _ (List.mem_singleton_self _), rfl⟩

/-- One step stages at most one transaction, and any staged transaction
is linked to the job and carries the category resolved for the row's
effective category name. -/
theorem step_txns {userId jobId : Nat} {st : RunState} {r : RawRow}
    {st' : RunState} (h : step userId jobId st r = .ok st')
    (hinv : CacheInv st) :
    st'.db.txns = st.db.txns ∨
    ∃ c ∈ st'.db.categories, ∃ t,
      st'.db.txns = st.db.txns ++ [t] ∧ t.importJobId = some jobId ∧
      t.categoryId = some c.id ∧ c.name = effCatName r := by
  obtain ⟨inst, stA, acct, stB, cat, stC, txnDate, originalDate,
    h1, h2, h3, _, _, hend⟩ := step_spec h
  obtain ⟨_, _, _, _, _, _, t1, _, _⟩ := resolveInst_spec h1
  obtain ⟨_, _, _, _, _, _, t2, _, _⟩ := resolveAcct_spec h2
  obtain ⟨_, _, _, _, _, _, t3, _, _⟩ := resolveCat_spec h3
  have htxnsC : stC.db.txns = st.db.txns := by rw [t3, t2, t1]
  have hinvB := resolveAcct_inv h2 (resolveInst_inv h1 hinv)
  obtain ⟨hcmem, hcname⟩ := resolveCat_found h3 hinvB
  rcases hend with ⟨_, hst⟩ | ⟨_, hst⟩ <;> subst hst
  · exact Or.inl htxnsC
  · refine Or.inr ⟨cat, hcmem, _, by rw [htxnsC], rfl, rfl, hcname⟩

/-- Over a successful loop every staged transaction belongs to the job
and references a stored category named after its row's effective
category name. -/
theorem foldRows_txns {userId jobId : Nat} :
    ∀ (rows : List RawRow) (st stF : RunState),
      foldRows userId jobId st rows = .ok stF → CacheInv st →
      ∃ Δ, stF.db.txns = st.db.txns ++ Δ ∧
        ∀ t ∈ Δ, t.importJobId = some jobId ∧
          ∃ r ∈ rows, ∃ c ∈ stF.db.categories,
            t.categoryId = some c.id ∧ c.name = effCatName r := by
  intro rows
  induction rows with
  | nil =>
    intro st stF h _
    cases h
    exact ⟨[], by simp, fun t ht => absurd ht (List.not_mem_nil t)⟩
  | cons r rest ih =>
    intro st stF h hinv
    simp only [foldRows] at h
    cases hstep : step userId jobId st r with
    | error e => rw [hstep] at h; cases h
    | ok st1 =>
      rw [hstep] at h
      obtain ⟨Δ, hΔ, hprop⟩ := ih st1 stF h (step_inv hstep hinv)
      obtain ⟨hextF, -, -, -, -, -, -, -⟩ := foldRows_facts rest st1 stF h
      rcases step_txns hstep hinv with htx | ⟨c, hcmem, t, htx, hjid, hcid, hcname⟩
      · refine ⟨Δ, by rw [hΔ, htx], fun t ht => ?_⟩
        obtain ⟨hj, r', hr', rest'⟩ := hprop t ht
        exact ⟨hj, r', List.mem_cons_of_mem _ hr', rest'⟩
      · refine ⟨t :: Δ, by rw [hΔ, htx]; simp, fun t' ht' => ?_⟩
        rcases List.mem_cons.mp ht' with ht' | ht'
        · subst ht'
          refine ⟨hjid, r, List.mem_cons_self _ _, c, ?_, hcid, hcname⟩
          obtain ⟨_, _, ⟨lc, hlc⟩, _⟩ := hextF
          rw [hlc]
          exact List.mem_append_left _ hcmem
        · obtain ⟨hj, r', hr', rest'⟩ := hprop t' ht'
          exact ⟨hj, r', List.mem_cons_of_mem _ hr', rest'⟩

/-- A progress-checkpoint commit does not disturb cache soundness (it
only rewrites job rows). -/
theorem cacheInv_updateJob {st : RunState} (jid : Nat) (f : ImportJob → ImportJob)
    (hinv : CacheInv st) : CacheInv { st with db := st.db.updateJob jid f } :=
  hinv

/-- Facts about a successful sync row loop: exact counting, append-only
transaction staging with category linking, and job rows touched only in
their `processed_rows` field. -/
theorem syncFoldRows_main {userId jobId : Nat} {hp : Bool} :
    ∀ (rows : List RawRow) (acc accF : SyncAcc),
      syncFoldRows userId jobId hp acc rows = .ok accF →
      (accF.st.imported + accF.st.duplicates =
        acc.st.imported + acc.st.duplicates + rows.length) ∧
      DbExt acc.st.db accF.st.db ∧
      (∃ f : ImportJob → ImportJob,
        (∀ j, ∃ p, f j = { j with processedRows := p }) ∧
        accF.st.db.findJob jobId = (acc.st.db.findJob jobId).map f) ∧
      (CacheInv acc.st →
        ∃ Δ, accF.st.db.txns = acc.st.db.txns ++ Δ ∧
          ∀ t ∈ Δ, t.importJobId = some jobId ∧
            ∃ r ∈ rows, ∃ c ∈ accF.st.db.categories,
              t.categoryId = some c.id ∧ c.name = effCatName r) := by
  intro rows
  induction rows with
  | nil =>
    intro acc accF h
    cases h
    refine ⟨rfl, DbExt.rfl' _, ⟨fun j => { j with processedRows := j.processedRows },
      fun j => ⟨j.processedRows, rfl⟩, by simp⟩, fun _ => ⟨[], by simp,
      fun t ht => absurd ht (List.not_mem_nil t)⟩⟩
  | cons r rest ih =>
    intro acc accF h
    simp only [syncFoldRows] at h
    cases hstep : step userId jobId acc.st r with
    | error e => rw [hstep] at h; cases h
    | ok st1 =>
      rw [hstep] at h
      dsimp only at h
      obtain ⟨hext1, hjobs1⟩ := step_ext hstep
      have hcnt1 := step_counts hstep
      have hfj1 : st1.db.findJob jobId = acc.st.db.findJob jobId :=
        findJob_congr hjobs1 jobId
      split at h
      · -- checkpoint commit
        obtain ⟨hcnt, hext, ⟨f, hf, hfj⟩, htx⟩ := ih _ _ h
        refine ⟨?_, ?_, ?_, ?_⟩
        · simp only [List.length_cons]
          rcases hcnt1 with ⟨hi', hd'⟩ | ⟨hi', hd'⟩ <;>
            dsimp only at hcnt <;> rw [hi', hd'] at hcnt <;> omega
        · refine DbExt.trans' (DbExt.trans' hext1 ?_) hext
          exact ⟨⟨[], by simp [DB.updateJob]⟩, ⟨[], by simp [DB.updateJob]⟩,
            ⟨[], by simp [DB.updateJob]⟩, ⟨[], by simp [DB.updateJob]⟩⟩
        · refine ⟨fun j => f { j with processedRows := acc.i + 1 }, ?_, ?_⟩
          · intro j
            obtain ⟨p, hfp⟩ := hf { j with processedRows := acc.i + 1 }
            exact ⟨p, hfp⟩
          · rw [hfj]
            show _ = (acc.st.db.findJob jobId).map _
            rw [findJob_updateJob st1.db jobId
              (fun j => { j with processedRows := acc.i + 1 }) (fun _ => rfl)]
            rw [hfj1]
            cases acc.st.db.findJob jobId <;> rfl
        · intro hinv
          have hinv1 : CacheInv st1 := step_inv hstep hinv
          obtain ⟨Δ2, hΔ2, hp2⟩ := htx (cacheInv_updateJob jobId _ hinv1)
          rcases step_txns hstep hinv with htx0 | ⟨c, hcmem, t, htx0, hjid, hcid, hcname⟩
          · refine ⟨Δ2, ?_, fun t' ht' => ?_⟩
            · rw [hΔ2]
              show st1.db.txns ++ Δ2 = _
              rw [htx0]
            · obtain ⟨hj, r', hr', rest'⟩ := hp2 t' ht'
              exact ⟨hj, r', List.mem_cons_of_mem _ hr', rest'⟩
          · refine ⟨t :: Δ2, ?_, fun t' ht' => ?_⟩
            · rw [hΔ2]
              show st1.db.txns ++ Δ2 = _
              rw [htx0]
              simp
            · rcases List.mem_cons.mp ht' with ht' | ht'
              · subst ht'
                refine ⟨hjid, r, List.mem_cons_self _ _, c, ?_, hcid, hcname⟩
                obtain ⟨_, _, ⟨lc, hlc⟩, _⟩ := hext
                rw [hlc]
                exact List.mem_append_left _ hcmem
              · obtain ⟨hj, r', hr', rest'⟩ := hp2 t' ht'
                exact ⟨hj, r', List.mem_cons_of_mem _ hr', rest'⟩
      · -- no checkpoint
        obtain ⟨hcnt, hext, ⟨f, hf, hfj⟩, htx⟩ := ih _ _ h
        refine ⟨?_, DbExt.trans' hext1 hext, ⟨f, hf, by rw [hfj, hfj1]⟩, ?_⟩
        · simp only [List.length_cons]
          rcases hcnt1 with ⟨hi', hd'⟩ | ⟨hi', hd'⟩ <;>
            dsimp only at hcnt <;> rw [hi', hd'] at hcnt <;> omega
        · intro hinv
          have hinv1 : CacheInv st1 := step_inv hstep hinv
          obtain ⟨Δ2, hΔ2, hp2⟩ := htx hinv1
          rcases step_txns hstep hinv with htx0 | ⟨c, hcmem, t, htx0, hjid, hcid, hcname⟩
          · refine ⟨Δ2, by rw [hΔ2, htx0], fun t' ht' => ?_⟩
            obtain ⟨hj, r', hr', rest'⟩ := hp2 t' ht'
            exact ⟨hj, r', List.mem_cons_of_mem _ hr', rest'⟩
          · refine ⟨t :: Δ2, by rw [hΔ2, htx0]; simp, fun t' ht' => ?_⟩
            rcases List.mem_cons.mp ht' with ht' | ht'
            · subst ht'
              refine ⟨hjid, r, List.mem_cons_self _ _, c, ?_, hcid, hcname⟩
              obtain ⟨_, _, ⟨lc, hlc⟩, _⟩ := hext
              rw [hlc]
              exact List.mem_append_left _ hcmem
            · obtain ⟨hj, r', hr', rest'⟩ := hp2 t' ht'
              exact ⟨hj, r', List.mem_cons_of_mem _ hr', rest'⟩

/-- With no progress callback the sync loop never commits: a raised
exception rolls back to the state committed before the loop. -/
theorem syncFoldRows_error_no_progress {userId jobId : Nat} :
    ∀ (rows : List RawRow) (acc : SyncAcc) (e : String) (d : DB),
      syncFoldRows userId jobId false acc rows = .error (e, d) →
      d = acc.committed := by
  intro rows
  induction rows with
  | nil => intro acc e d h; cases h
  | cons r rest ih =>
    intro acc e d h
    simp only [syncFoldRows] at h
    cases hstep : step userId jobId acc.st r with
    | error e' =>
      rw [hstep] at h
      cases h
      rfl
    | ok st1 =>
      rw [hstep] at h
      dsimp only at h
      simp only [Bool.false_and, Bool.false_eq_true, if_false] at h
      exact ih ⟨acc.committed, st1, acc.i + 1⟩ _ _ h

/-! ### C10 — counters add up and staged transactions carry a category -/

/-- Claim C10: after a successful run of either import path, every parsed
row is counted exactly once (imported_rows + duplicate_rows = total_rows
= number of parsed rows), and every transaction the run staged is linked
to the job and carries a non-null category — the category resolved for
the row's effective category name, which defaults to "Uncategorized" for
a missing or empty name.  (The sync path's success leaves the job in
PROCESSING: the chained categorize task, not the worker, completes it.) -/
theorem import_counters_and_categories
    (parsers : List Parser) (s : DbSession) (userId : Nat)
    (filename content : String) (p : Parser) (rows : List RawRow)
    (hfresh : s.current = s.committed)
    (hfind : parsers.find? (fun q => q.detect content filename) = some p)
    (hparse : p.parse content filename = .ok rows) :
    (∀ job s', runImport parsers s userId filename content = (job, s') →
       job.status = .completed →
       job.importedRows + job.duplicateRows = job.totalRows ∧
       job.totalRows = rows.length ∧
       ∃ Δ, s'.committed.txns = s.committed.txns ++ Δ ∧
         ∀ t ∈ Δ, t.importJobId = some job.id ∧ t.categoryId ≠ none ∧
           ∃ r ∈ rows, ∃ c ∈ s'.committed.categories,
             t.categoryId = some c.id ∧ c.name = effCatName r) ∧
    (∀ jobId hp job s',
       runImportSync parsers s userId filename content jobId hp = .ok (job, s') →
       job.status = .processing →
       job.importedRows + job.duplicateRows = job.totalRows ∧
       job.totalRows = rows.length ∧
       ∃ Δ, s'.committed.txns = s.committed.txns ++ Δ ∧
         ∀ t ∈ Δ, t.importJobId = some jobId ∧ t.categoryId ≠ none ∧
           ∃ r ∈ rows, ∃ c ∈ s'.committed.categories,
             t.categoryId = some c.id ∧ c.name = effCatName r) := by
  obtain ⟨com0, cur0⟩ := s
  dsimp only at hfresh
  subst hfresh
  constructor
  · -- async path
    intro job s' hrun hstatus
    simp only [runImport, DbSession.commit, DbSession.rollback] at hrun
    rw [hfind] at hrun
    dsimp only at hrun
    rw [hparse] at hrun
    dsimp only at hrun
    split at hrun
    · -- fold succeeded
      rename_i stF hfold
      obtain ⟨hext, hjobs, hmi, hma, hmc, hcnt, hdup, hinv⟩ :=
        foldRows_facts _ _ _ hfold
      obtain ⟨Δ, hΔ, hprop⟩ := foldRows_txns _ _ _ hfold
        ⟨fun e he => absurd he (List.not_mem_nil e),
         fun e he => absurd he (List.not_mem_nil e),
         fun e he => absurd he (List.not_mem_nil e)⟩
      injection hrun with hj hs
      refine ⟨?_, ?_, Δ, ?_, ?_⟩
      · rw [← hj]
        show stF.imported + stF.duplicates = rows.length
        have hcnt' : stF.imported + stF.duplicates = 0 + 0 + rows.length := hcnt
        omega
      · rw [← hj]
      · rw [← hs]
        show stF.db.txns = cur0.txns ++ Δ
        exact hΔ
      · intro t ht
        obtain ⟨hjid, r', hr', c, hcmem, hcid, hcname⟩ := hprop t ht
        refine ⟨?_, by simp [hcid], r', hr', c, ?_, hcid, hcname⟩
        · rw [← hj]
          exact hjid
        · rw [← hs]
          exact hcmem
    · -- fold raised: job is FAILED, contradicting COMPLETED
      rename_i e hfold
      injection hrun with hj hs
      rw [← hj] at hstatus
      exact ImportStatus.noConfusion hstatus
  · -- sync path
    intro jobId hp job s' hrun hstatus
    simp only [runImportSync, DbSession.commit, DbSession.rollback] at hrun
    cases hj0 : cur0.findJob jobId with
    | none => rw [hj0] at hrun; cases hrun
    | some j0 =>
      rw [hj0] at hrun
      dsimp only at hrun
      rw [hfind] at hrun
      dsimp only at hrun
      rw [hparse] at hrun
      dsimp only at hrun
      split at hrun
      · -- fold succeeded
        rename_i acc hsf
        obtain ⟨hcnt, hext, ⟨f, hf, hfj⟩, htxfun⟩ := syncFoldRows_main _ _ _ hsf
        dsimp only at hfj
        rw [findJob_updateJob (cur0.updateJob jobId (fun j =>
              { j with sourceType := p.name, status := ImportStatus.processing }))
            jobId (fun j => { j with totalRows := rows.length }) (fun _ => rfl),
          findJob_updateJob cur0 jobId (fun j =>
              { j with sourceType := p.name, status := ImportStatus.processing })
            (fun _ => rfl),
          hj0] at hfj
        dsimp only [Option.map] at hfj
        obtain ⟨pr, hfpr⟩ := hf
          { j0 with
              sourceType := p.name
              status := ImportStatus.processing
              totalRows := rows.length }
        rw [hfpr] at hfj
        injection hrun with hpair
        injection hpair with hj hs
        have hjob : job = { j0 with sourceType := p.name,
                                    status := ImportStatus.processing,
                                    totalRows := rows.length,
                                    processedRows := rows.length,
                                    importedRows := acc.st.imported,
                                    duplicateRows := acc.st.duplicates } := by
          rw [← hj]
          rw [findJob_updateJob acc.st.db jobId
            (fun j => { j with processedRows := rows.length,
                               importedRows := acc.st.imported,
                               duplicateRows := acc.st.duplicates }) (fun _ => rfl)]
          rw [hfj]
          rfl
        obtain ⟨Δ, hΔ, hprop⟩ := htxfun
          ⟨fun e he => absurd he (List.not_mem_nil e),
           fun e he => absurd he (List.not_mem_nil e),
           fun e he => absurd he (List.not_mem_nil e)⟩
        refine ⟨?_, ?_, Δ, ?_, ?_⟩
        · rw [hjob]
          show acc.st.imported + acc.st.duplicates = rows.length
          have hcnt' : acc.st.imported + acc.st.duplicates = 0 + 0 + rows.length :=
            hcnt
          omega
        · rw [hjob]
        · rw [← hs]
          show acc.st.db.txns = cur0.txns ++ Δ
          exact hΔ
        · intro t ht
          obtain ⟨hjid, r', hr', c, hcmem, hcid, hcname⟩ := hprop t ht
          refine ⟨hjid, by simp [hcid], r', hr', c, ?_, hcid, hcname⟩
          rw [← hs]
          exact hcmem
      · -- fold raised: the committed job is FAILED (or, were the job row
        -- somehow gone, the PENDING placeholder) — never PROCESSING
        rename_i e d hsf
        injection hrun with hpair
        injection hpair with hj hs
        rw [← hj] at hstatus
        rw [findJob_updateJob d jobId (fun j =>
          { j with status := ImportStatus.failed,
                   errorMessage := some (truncate1000 e) }) (fun _ => rfl)] at hstatus
        cases hd : d.findJob jobId with
        | none =>
          rw [hd] at hstatus
          exact ImportStatus.noConfusion hstatus
        | some jd =>
          rw [hd] at hstatus
          exact ImportStatus.noConfusion hstatus

/-- Witness for C10: the one-row toy import satisfies every hypothesis,
and the COMPLETED job's counters add up to the parsed row count. -/
theorem import_counters_and_categories_witness :
    singleRun1.1.importedRows + singleRun1.1.duplicateRows =
      singleRun1.1.totalRows ∧
    singleRun1.1.totalRows = rowsSingle.length :=
  have key := (import_counters_and_categories [constParser rowsSingle]
    ⟨emptyDB, emptyDB⟩ 7 "f.csv" "x" (constParser rowsSingle) rowsSingle
    rfl rfl rfl).1 singleRun1.1 singleRun1.2 rfl (by decide)
  ⟨key.1, key.2.1⟩

/-! ### C1 — failure atomicity -/

/-- Counterexample to C1: the background-worker path with a progress
callback (the Celery task always installs one) commits a checkpoint every
100 rows, so when row 101 raises, rollback only restores the last
checkpoint: the FAILED run leaves 100 transactions and the institution,
account and category created by the run persisted. -/
theorem import_rollback_counterexample :
    ((runImportSync [constParser rows101] ⟨preJobDB, preJobDB⟩ 7 "f.csv" "x"
        55 true).toOption.map (fun r =>
      (r.1.status, r.1.errorMessage, r.2.committed.txns.length,
       r.2.committed.institutions.length, r.2.committed.accounts.length,
       r.2.committed.categories.length))) =
    some (ImportStatus.failed, some "Invalid isoformat string: 'oops'",
      100, 1, 1, 1) := by
  decide

/-- Amended C1: the async path is fully atomic — a FAILED run leaves the
institution, account, category and transaction tables exactly as last
committed and appends only the FAILED job, whose error_message is the
exception text truncated to 1000 characters.  The worker path satisfies
the same atomicity when no progress callback is installed (with the
failure recorded on the pre-created job row); with a callback it only
rolls back to the last 100-row checkpoint (see the counterexample). -/
theorem import_rollback_amended
    (parsers : List Parser) (s : DbSession) (userId : Nat)
    (filename content : String)
    (hfresh : s.current = s.committed) :
    (∀ job s', runImport parsers s userId filename content = (job, s') →
       job.status = .failed →
       s'.committed.institutions = s.committed.institutions ∧
       s'.committed.accounts = s.committed.accounts ∧
       s'.committed.categories = s.committed.categories ∧
       s'.committed.txns = s.committed.txns ∧
       s'.committed.jobs = s.committed.jobs ++ [job] ∧
       ∃ e, job.errorMessage = some (truncate1000 e)) ∧
    (∀ jobId job s',
       runImportSync parsers s userId filename content jobId false =
         .ok (job, s') →
       job.status = .failed →
       s'.committed.institutions = s.committed.institutions ∧
       s'.committed.accounts = s.committed.accounts ∧
       s'.committed.categories = s.committed.categories ∧
       s'.committed.txns = s.committed.txns ∧
       s'.committed.findJob jobId = some job ∧
       ∃ e, job.errorMessage = some (truncate1000 e)) := by
  obtain ⟨com0, cur0⟩ := s
  dsimp only at hfresh
  subst hfresh
  constructor
  · -- async path
    intro job s' hrun hstatus
    simp only [runImport, DbSession.commit, DbSession.rollback] at hrun
    split at hrun
    · -- no parser found
      injection hrun with hj hs
      refine ⟨by rw [← hs], by rw [← hs], by rw [← hs], by rw [← hs],
        by rw [← hs, ← hj], "No parser found for this file format", ?_⟩
      rw [← hj]
      show some "No parser found for this file format" =
        some (truncate1000 "No parser found for this file format")
      decide
    · -- parser found
      rename_i parser hfind
      split at hrun
      · -- parse raised
        rename_i e hparse
        injection hrun with hj hs
        refine ⟨by rw [← hs], by rw [← hs], by rw [← hs], by rw [← hs],
          by rw [← hs, ← hj], e, ?_⟩
        rw [← hj]
      · -- parse succeeded
        rename_i rows hparse
        split at hrun
        · -- fold succeeded: job is COMPLETED, contradicting FAILED
          rename_i stF hfold
          injection hrun with hj hs
          rw [← hj] at hstatus
          exact ImportStatus.noConfusion hstatus
        · -- fold raised
          rename_i e hfold
          injection hrun with hj hs
          refine ⟨by rw [← hs], by rw [← hs], by rw [← hs], by rw [← hs],
            by rw [← hs, ← hj], e, ?_⟩
          rw [← hj]
  · -- sync path, no progress callback
    intro jobId job s' hrun hstatus
    simp only [runImportSync, DbSession.commit, DbSession.rollback] at hrun
    cases hj0 : cur0.findJob jobId with
    | none => rw [hj0] at hrun; cases hrun
    | some j0 =>
      rw [hj0] at hrun
      dsimp only at hrun
      split at hrun
      · -- no parser found: job marked FAILED in place
        injection hrun with hpair
        injection hpair with hj hs
        have hV : (cur0.updateJob jobId (fun j =>
            { j with status := ImportStatus.failed,
                     errorMessage :=
                       some "No parser found for this file format" })).findJob
              jobId =
            some { j0 with status := ImportStatus.failed,
                           errorMessage :=
                             some "No parser found for this file format" } := by
          rw [findJob_updateJob cur0 jobId (fun j =>
            { j with status := ImportStatus.failed,
                     errorMessage :=
                       some "No parser found for this file format" })
            (fun _ => rfl), hj0]
          rfl
        refine ⟨by rw [← hs]; rfl, by rw [← hs]; rfl, by rw [← hs]; rfl,
          by rw [← hs]; rfl, ?_, "No parser found for this file format", ?_⟩
        · rw [← hs, ← hj, hV]
          rfl
        · rw [← hj, hV]
          show some "No parser found for this file format" =
            some (truncate1000 "No parser found for this file format")
          decide
      · -- parser found
        rename_i parser hfind
        split at hrun
        · -- parse raised
          rename_i e hparse
          injection hrun with hpair
          injection hpair with hj hs
          have hV : ((cur0.updateJob jobId (fun j =>
              { j with sourceType := parser.name,
                       status := ImportStatus.processing })).updateJob jobId
              (fun j => { j with status := ImportStatus.failed,
                                 errorMessage :=
                                   some (truncate1000 e) })).findJob jobId =
              some { j0 with sourceType := parser.name,
                             status := ImportStatus.failed,
                             errorMessage := some (truncate1000 e) } := by
            rw [findJob_updateJob _ jobId (fun j =>
                { j with status := ImportStatus.failed,
                         errorMessage := some (truncate1000 e) }) (fun _ => rfl),
              findJob_updateJob cur0 jobId (fun j =>
                { j with sourceType := parser.name,
                         status := ImportStatus.processing }) (fun _ => rfl),
              hj0]
            rfl
          refine ⟨by rw [← hs]; rfl, by rw [← hs]; rfl, by rw [← hs]; rfl,
            by rw [← hs]; rfl, ?_, e, ?_⟩
          · rw [← hs, ← hj, hV]
            rfl
          · rw [← hj, hV]
            rfl
        · -- parse succeeded
          rename_i rows hparse
          split at hrun
          · -- fold succeeded: job stays PROCESSING, contradicting FAILED
            rename_i acc hsf
            obtain ⟨hcnt, hext, ⟨f, hf, hfj⟩, htxfun⟩ :=
              syncFoldRows_main _ _ _ hsf
            dsimp only at hfj
            rw [findJob_updateJob (cur0.updateJob jobId (fun j =>
                  { j with sourceType := parser.name,
                           status := ImportStatus.processing }))
                jobId (fun j => { j with totalRows := rows.length })
                (fun _ => rfl),
              findJob_updateJob cur0 jobId (fun j =>
                  { j with sourceType := parser.name,
                           status := ImportStatus.processing })
                (fun _ => rfl),
              hj0] at hfj
            dsimp only [Option.map] at hfj
            obtain ⟨pr, hfpr⟩ := hf
              { j0 with
                  sourceType := parser.name
                  status := ImportStatus.processing
                  totalRows := rows.length }
            rw [hfpr] at hfj
            injection hrun with hpair
            injection hpair with hj hs
            rw [← hj] at hstatus
            rw [findJob_updateJob acc.st.db jobId
              (fun j => { j with processedRows := rows.length,
                                 importedRows := acc.st.imported,
                                 duplicateRows := acc.st.duplicates })
              (fun _ => rfl), hfj] at hstatus
            exact ImportStatus.noConfusion hstatus
          · -- fold raised: with no callback the rollback restores the
            -- pre-loop commit, which only touched the job row
            rename_i e d hsf
            have hd := syncFoldRows_error_no_progress _ _ _ _ hsf
            subst hd
            dsimp only at hrun
            injection hrun with hpair
            injection hpair with hj hs
            have hV : (((cur0.updateJob jobId (fun j =>
                { j with sourceType := parser.name,
                         status := ImportStatus.processing })).updateJob jobId
                (fun j => { j with totalRows := rows.length })).updateJob jobId
                (fun j => { j with status := ImportStatus.failed,
                                   errorMessage :=
                                     some (truncate1000 e) })).findJob jobId =
                some { j0 with sourceType := parser.name,
                               status := ImportStatus.failed,
                               totalRows := rows.length,
                               errorMessage := some (truncate1000 e) } := by
              rw [findJob_updateJob _ jobId (fun j =>
                  { j with status := ImportStatus.failed,
                           errorMessage := some (truncate1000 e) })
                  (fun _ => rfl),
                findJob_updateJob _ jobId (fun j =>
                  { j with totalRows := rows.length }) (fun _ => rfl),
                findJob_updateJob cur0 jobId (fun j =>
                  { j with sourceType := parser.name,
                           status := ImportStatus.processing }) (fun _ => rfl),
                hj0]
              rfl
            refine ⟨by rw [← hs]; rfl, by rw [← hs]; rfl, by rw [← hs]; rfl,
              by rw [← hs]; rfl, ?_, e, ?_⟩
            · rw [← hs, ← hj, hV]
              rfl
            · rw [← hj, hV]
              rfl

/-- Witness for C1 (amended): a parser that raises on a fresh empty store
leaves the transaction table empty and records a truncated message. -/
theorem import_rollback_amended_witness :
    (runImport [failParser] ⟨emptyDB, emptyDB⟩ 7 "f.csv" "x").2.committed.txns =
      emptyDB.txns ∧
    ∃ e,
      (runImport [failParser] ⟨emptyDB, emptyDB⟩ 7 "f.csv" "x").1.errorMessage =
        some (truncate1000 e) :=
  have key := (import_rollback_amended [failParser] ⟨emptyDB, emptyDB⟩ 7
    "f.csv" "x" rfl).1
    (runImport [failParser] ⟨emptyDB, emptyDB⟩ 7 "f.csv" "x").1
    (runImport [failParser] ⟨emptyDB, emptyDB⟩ 7 "f.csv" "x").2 rfl (by decide)
  ⟨key.2.2.2.1, key.2.2.2.2.2⟩

/-! ### C2 — re-import idempotence: second-run simulation -/

/-- A member of a list of length at most one is its only element. -/
theorem eq_singleton_of_mem_of_length_le_one {α : Type} {l : List α} {a : α}
    (hm : a ∈ l) (hl : l.length ≤ 1) : l = [a] := by
  cases l with
  | nil => cases hm
  | cons x t =>
    cases t with
    | nil => rw [List.mem_singleton.mp hm]
    | cons y t2 => simp at hl

/-- The element of a singleton filter result is a member satisfying the
predicate. -/
theorem mem_of_filter_singleton {α : Type} {p : α → Bool} {l : List α} {v : α}
    (h : l.filter p = [v]) : v ∈ l ∧ p v = true := by
  have hv : v ∈ l.filter p := by
    rw [h]
    exact List.mem_singleton_self v
  exact ⟨(List.mem_filter.mp hv).1, (List.mem_filter.mp hv).2⟩

/-- Institution resolution simulated in a second run: with entity tables
equal to the first run's final ones and matching cache contents, the same
institution is returned and the database is untouched. -/
theorem resolveInst_sim {stF st1 : RunState} {name : String}
    {inst : Institution} {st1' st2 : RunState}
    (h1 : resolveInst st1 name = .ok (inst, st1'))
    (hinvF : CacheInv stF)
    (hmonoI : ∀ e ∈ st1'.instCache, e ∈ stF.instCache)
    (hEnt : EntEq stF.db st2.db)
    (hic : st2.instCache = st1.instCache) :
    resolveInst st2 name = .ok (inst, { st2 with instCache := st1'.instCache }) ∧
    inst ∈ st2.db.institutions ∧ inst.name = name := by
  obtain ⟨-, -, -, -, -, -, -, -, hcase⟩ := resolveInst_spec h1
  rcases hcase with ⟨e, hfindE, heinst, hst⟩ | ⟨hmiss, hcache, hsub⟩
  · have hkey : e.1 = name := by simpa using List.find?_some hfindE
    have hmem : e ∈ stF.instCache := by
      refine hmonoI e ?_
      rw [hst]
      exact List.mem_of_find?_eq_some hfindE
    have hfilF : stF.db.institutions.filter (fun i => i.name == e.1) = [e.2] :=
      hinvF.1 e hmem
    obtain ⟨hm, hp⟩ := mem_of_filter_singleton hfilF
    rw [hEnt.1] at hm
    refine ⟨?_, by rw [← heinst]; exact hm, ?_⟩
    · simp only [resolveInst, hic, hfindE]
      rw [heinst, hst, ← hic]
    · rw [← heinst, ← hkey]
      simpa using hp
  · have hmemF : (name, inst) ∈ stF.instCache := by
      refine hmonoI (name, inst) ?_
      rw [hcache]
      exact List.mem_append_right _ (List.mem_singleton_self _)
    have hfilF : stF.db.institutions.filter (fun i => i.name == name) = [inst] :=
      hinvF.1 (name, inst) hmemF
    rw [hEnt.1] at hfilF
    obtain ⟨hm, hp⟩ := mem_of_filter_singleton hfilF
    have hgoc : getOrCreateInstitution st2.db name = .ok (inst, st2.db) := by
      simp only [getOrCreateInstitution, hfilF]
    refine ⟨?_, hm, by simpa using hp⟩
    simp only [resolveInst, hic, hmiss, hgoc]
    rw [hcache]

/-- Category resolution simulated in a second run. -/
theorem resolveCat_sim {stF st1 : RunState} {name : String}
    {cat : Category} {st1' st2 : RunState}
    (h1 : resolveCat st1 name = .ok (cat, st1'))
    (hinvF : CacheInv stF)
    (hmonoC : ∀ e ∈ st1'.catCache, e ∈ stF.catCache)
    (hEnt : EntEq stF.db st2.db)
    (hcc : st2.catCache = st1.catCache) :
    resolveCat st2 name = .ok (cat, { st2 with catCache := st1'.catCache }) := by
  obtain ⟨-, -, -, -, -, -, -, -, hcase⟩ := resolveCat_spec h1
  rcases hcase with ⟨e, hfindE, hecat, hst⟩ | ⟨hmiss, hcache, hsub⟩
  · simp only [resolveCat, hcc, hfindE]
    rw [hecat, hst, ← hcc]
  · have hmemF : (name, cat) ∈ stF.catCache := by
      refine hmonoC (name, cat) ?_
      rw [hcache]
      exact List.mem_append_right _ (List.mem_singleton_self _)
    have hfilF : stF.db.categories.filter (fun c => c.name == name) = [cat] :=
      hinvF.2.1 (name, cat) hmemF
    rw [hEnt.2.2.1] at hfilF
    have hgoc : getOrCreateCategory st2.db name = .ok (cat, st2.db) := by
      simp only [getOrCreateCategory, hfilF]
    simp only [resolveCat, hcc, hmiss, hgoc]
    rw [hcache]

/-- Account resolution simulated in a second run: the first run's account
is still the unique lookup match (hypothesis `AcctUnambiguous`), so it is
found again and nothing is created. -/
theorem resolveAcct_sim {stF : RunState} {userId : Nat} {st1 : RunState}
    {inst : Institution} {r : RawRow} {acct : Account} {st1' st2 : RunState}
    (h1 : resolveAcct userId st1 inst r = .ok (acct, st1'))
    (hmonoA : ∀ e ∈ st1'.acctCache, e ∈ stF.acctCache)
    (haccts : ∀ a ∈ st1'.db.accounts, a ∈ stF.db.accounts)
    (hEnt : EntEq stF.db st2.db)
    (hinstMem : inst ∈ st2.db.institutions)
    (hinstName : inst.name = r.institutionName)
    (hunamb : AcctUnambiguous st2.db r)
    (hac : st2.acctCache = st1.acctCache) :
    resolveAcct userId st2 inst r =
      .ok (acct, { st2 with acctCache := st1'.acctCache }) := by
  obtain ⟨-, -, -, -, -, -, -, -, hcase⟩ := resolveAcct_spec h1
  rcases hcase with ⟨e, hfindE, heacct, hst⟩ | ⟨hmiss, hcache, hsub⟩
  · simp only [resolveAcct, hac, hfindE]
    rw [heacct, hst, ← hac]
  · have hlen := hunamb inst hinstMem hinstName
    have hfil2 : st2.db.accounts.filter
        (acctMatches inst.id r.accountName (last4Filter r.accountNumberLast4)) =
        [acct] := by
      rcases hsub with ⟨hfil1, hdb⟩ | ⟨hfil0, hacct, hdbacc, -⟩
      · obtain ⟨hm1, hp1⟩ := mem_of_filter_singleton hfil1
        have hm2 : acct ∈ st2.db.accounts := by
          rw [← hEnt.2.1]
          refine haccts acct ?_
          rw [hdb]
          exact hm1
        exact eq_singleton_of_mem_of_length_le_one
          (List.mem_filter.mpr ⟨hm2, hp1⟩) hlen
      · have hm2 : acct ∈ st2.db.accounts := by
          rw [← hEnt.2.1]
          refine haccts acct ?_
          rw [hdbacc]
          exact List.mem_append_right _ (List.mem_singleton_self _)
        have hp1 : acctMatches inst.id r.accountName
            (last4Filter r.accountNumberLast4) acct = true := by
          rw [hacct]
          simp only [acctMatches, last4Filter]
          cases hl : r.accountNumberLast4 with
          | none => simp
          | some s =>
            by_cases hs : (s == "") = true
            · simp [hs]
            · simp [hs]
        exact eq_singleton_of_mem_of_length_le_one
          (List.mem_filter.mpr ⟨hm2, hp1⟩) hlen
    have hgoc : getOrCreateAccount st2.db inst r.accountName r.accountType
        r.accountNumberLast4 userId = .ok (acct, st2.db) := by
      simp only [getOrCreateAccount, hfil2]
    simp only [resolveAcct, hac, hmiss, hgoc]
    rw [hcache]

/-- One row step simulated in a second run: the row resolves to the same
entities and is detected as a duplicate, so only the duplicate counter
moves. -/
theorem step_sim {userId jid1 : Nat} (jid2 : Nat) {stF st1 : RunState}
    {r : RawRow} {st1' st2 : RunState}
    (h1 : step userId jid1 st1 r = .ok st1')
    (hinvF : CacheInv stF)
    (hmonoI : ∀ e ∈ st1'.instCache, e ∈ stF.instCache)
    (hmonoA : ∀ e ∈ st1'.acctCache, e ∈ stF.acctCache)
    (hmonoC : ∀ e ∈ st1'.catCache, e ∈ stF.catCache)
    (hmonoDB : DbExt st1'.db stF.db)
    (hEnt : EntEq stF.db st2.db)
    (hunamb : AcctUnambiguous st2.db r)
    (hic : st2.instCache = st1.instCache)
    (hac : st2.acctCache = st1.acctCache)
    (hcc : st2.catCache = st1.catCache) :
    step userId jid2 st2 r =
      .ok { st2 with instCache := st1'.instCache,
                     acctCache := st1'.acctCache,
                     catCache := st1'.catCache,
                     duplicates := st2.duplicates + 1 } := by
  obtain ⟨inst, stA, acct, stB, cat, stC, txnDate, originalDate,
    hA, hB, hC, hdt, hod, hend⟩ := step_spec h1
  obtain ⟨hAa, hAc, -, -, -, -, -, -, -⟩ := resolveInst_spec hA
  obtain ⟨hBi, hBc, -, -, -, hBcat, hBtx, -, -⟩ := resolveAcct_spec hB
  obtain ⟨hCi, hCa, -, -, -, hCacc, hCtx, -, -⟩ := resolveCat_spec hC
  have hIC : st1'.instCache = stA.instCache := by
    rcases hend with ⟨-, hst⟩ | ⟨-, hst⟩ <;> rw [hst] <;>
      · show stC.instCache = stA.instCache
        rw [hCi, hBi]
  have hAC : st1'.acctCache = stB.acctCache := by
    rcases hend with ⟨-, hst⟩ | ⟨-, hst⟩ <;> rw [hst] <;>
      · show stC.acctCache = stB.acctCache
        rw [hCa]
  have hCC : st1'.catCache = stC.catCache := by
    rcases hend with ⟨-, hst⟩ | ⟨-, hst⟩ <;> rw [hst] <;> rfl
  have hACCTS : st1'.db.accounts = stB.db.accounts := by
    rcases hend with ⟨-, hst⟩ | ⟨-, hst⟩ <;> rw [hst] <;>
      · show stC.db.accounts = stB.db.accounts
        rw [hCacc]
  obtain ⟨hAeq, hinstMem, hinstName⟩ := resolveInst_sim hA hinvF
    (fun e he => hmonoI e (by rw [hIC]; exact he)) hEnt hic
  have hBeq :
      resolveAcct userId { st2 with instCache := stA.instCache } inst r =
        .ok (acct, { st2 with instCache := stA.instCache,
                              acctCache := stB.acctCache }) :=
    resolveAcct_sim hB
      (fun e he => hmonoA e (by rw [hAC]; exact he))
      (fun a ha => by
        obtain ⟨-, ⟨la, hla⟩, -, -⟩ := hmonoDB
        rw [hla]
        refine List.mem_append_left _ ?_
        rw [hACCTS]
        exact ha)
      hEnt hinstMem hinstName hunamb
      (show st2.acctCache = stA.acctCache by rw [hac, hAa])
  have hCeq :
      resolveCat { st2 with instCache := stA.instCache,
                            acctCache := stB.acctCache } (effCatName r) =
        .ok (cat, { st2 with instCache := stA.instCache,
                             acctCache := stB.acctCache,
                             catCache := stC.catCache }) :=
    resolveCat_sim hC hinvF
      (fun e he => hmonoC e (by rw [hCC]; exact he)) hEnt
      (show st2.catCache = stB.catCache by rw [hcc, hBc, hAc])
  have hdup2 : isDuplicate
      ({ st2 with instCache := stA.instCache,
                  acctCache := stB.acctCache,
                  catCache := stC.catCache } : RunState).db acct.id txnDate
      r.amountCents r.description = true := by
    show isDuplicate st2.db acct.id txnDate r.amountCents r.description = true
    simp only [isDuplicate, List.any_eq_true]
    obtain ⟨-, -, -, ⟨lt, hlt⟩⟩ := hmonoDB
    rcases hend with ⟨hdup, hst⟩ | ⟨hnodup, hst⟩
    · simp only [isDuplicate, List.any_eq_true] at hdup
      obtain ⟨t, htmem, htp⟩ := hdup
      refine ⟨t, ?_, htp⟩
      rw [← hEnt.2.2.2, hlt]
      refine List.mem_append_left _ ?_
      have htxeq : st1'.db.txns = stC.db.txns := by rw [hst]
      rw [htxeq]
      exact htmem
    · refine ⟨{ id := stC.db.nextId, accountId := acct.id, date := txnDate,
                originalDate := originalDate, amountCents := r.amountCents,
                description := r.description,
                originalDescription := r.originalDescription,
                merchantName := r.merchantName, categoryId := some cat.id,
                customName := r.customName, note := r.note,
                isTransfer := r.isTransfer,
                isTaxDeductible := r.isTaxDeductible, tags := r.tags,
                importJobId := some jid1 }, ?_, ?_⟩
      · rw [← hEnt.2.2.2, hlt]
        refine List.mem_append_left _ ?_
        rw [hst]
        show _ ∈ stC.db.txns ++ _
        exact List.mem_append_right _ (List.mem_singleton_self _)
      · simp
  simp only [step, bind, Except.bind, hAeq, hBeq, hCeq, hdt, hod]
  rw [if_pos hdup2]
  simp only [pure, Except.pure]
  rw [hIC, hAC, hCC]

/-- The whole row loop simulated in a second run over the same rows: when
every row's account lookup is unambiguous in the post-first-run store,
the second loop succeeds, touches nothing, and counts every row as a
duplicate. -/
theorem foldRows_sim {userId jid1 jid2 : Nat} {stF : RunState} :
    ∀ (rows : List RawRow) (st1 st2 : RunState) (res : Except String RunState),
      foldRows userId jid1 st1 rows = .ok stF →
      foldRows userId jid2 st2 rows = res →
      CacheInv stF → EntEq stF.db st2.db →
      (∀ r ∈ rows, AcctUnambiguous st2.db r) →
      st2.instCache = st1.instCache → st2.acctCache = st1.acctCache →
      st2.catCache = st1.catCache →
      ∃ st2F, res = .ok st2F ∧ st2F.db = st2.db ∧
        st2F.imported = st2.imported ∧
        st2F.duplicates = st2.duplicates + rows.length := by
  intro rows
  induction rows with
  | nil =>
    intro st1 st2 res h1 h2 _ _ _ _ _ _
    simp only [foldRows] at h2
    exact ⟨st2, h2.symm, rfl, rfl, by simp⟩
  | cons r rest ih =>
    intro st1 st2 res h1 h2 hinvF hEnt hunamb hic hac hcc
    simp only [foldRows] at h1 h2
    cases hstep1 : step userId jid1 st1 r with
    | error e => rw [hstep1] at h1; cases h1
    | ok st1mid =>
      rw [hstep1] at h1
      obtain ⟨hext, -, hmi, hma, hmc, -, -, -⟩ := foldRows_facts rest st1mid stF h1
      have hstep2 := step_sim jid2 hstep1 hinvF hmi hma hmc hext hEnt
        (hunamb r (List.mem_cons_self _ _)) hic hac hcc
      rw [hstep2] at h2
      obtain ⟨st2F, hres, hdb, himp, hdup⟩ := ih st1mid _ res h1 h2 hinvF hEnt
        (fun r' hr' => hunamb r' (List.mem_cons_of_mem _ hr')) rfl rfl rfl
      refine ⟨st2F, hres, hdb, himp, ?_⟩
      have hdup' : st2F.duplicates = st2.duplicates + 1 + rest.length := hdup
      simp only [List.length_cons]
      omega

/-- Counterexample to C2: a file whose rows share institution and account
name but carry different last4 digits.  The first import completes
(3 imported, 0 duplicates) but creates two accounts named "Checking" at
the same institution; re-importing the identical file raises
MultipleResultsFound on the row without a last4 (the account lookup now
matches both rows), so the second run ends FAILED with 0 imported and 0
duplicates instead of completing with 3 duplicates. -/
theorem reimport_counterexample :
    (mixedRun1.1.status = ImportStatus.completed ∧
     mixedRun1.1.importedRows = 3 ∧ mixedRun1.1.duplicateRows = 0 ∧
     mixedRun1.2.committed.accounts.length = 2) ∧
    ((runImport [constParser rowsMixedLast4] mixedRun1.2 7 "f.csv" "x").1.status =
       ImportStatus.failed ∧
     (runImport [constParser rowsMixedLast4] mixedRun1.2 7
         "f.csv" "x").1.errorMessage = some multipleRowsMsg ∧
     (runImport [constParser rowsMixedLast4] mixedRun1.2 7
         "f.csv" "x").1.importedRows = 0 ∧
     (runImport [constParser rowsMixedLast4] mixedRun1.2 7
         "f.csv" "x").1.duplicateRows = 0) := by
  decide

/-- Amended C2: if the first run completes with no duplicates and no
row's account lookup is ambiguous in the resulting store (at most one
stored account matches each row's institution/name/last4 filter — the
counterexample shows MultipleResultsFound otherwise), then re-importing
the identical file for the same user completes with imported_rows = 0,
duplicate_rows = the first run's imported_rows, and persists no new
transaction: the committed transaction table is unchanged, so no dedup
key is stored twice. -/
theorem reimport_idempotent_amended
    (parsers : List Parser) (c : DB) (userId : Nat) (filename content : String)
    (p : Parser) (rows : List RawRow)
    (job1 : ImportJob) (s1 : DbSession) (job2 : ImportJob) (s2 : DbSession)
    (hfind : parsers.find? (fun q => q.detect content filename) = some p)
    (hparse : p.parse content filename = .ok rows)
    (hrun1 : runImport parsers ⟨c, c⟩ userId filename content = (job1, s1))
    (hcomp1 : job1.status = .completed)
    (hdup1 : job1.duplicateRows = 0)
    (hunamb : ∀ r ∈ rows, AcctUnambiguous s1.committed r)
    (hrun2 : runImport parsers s1 userId filename content = (job2, s2)) :
    job2.status = .completed ∧ job2.importedRows = 0 ∧
    job2.duplicateRows = job1.importedRows ∧
    s2.committed.txns = s1.committed.txns := by
  simp only [runImport, DbSession.commit, DbSession.rollback] at hrun1
  rw [hfind] at hrun1
  dsimp only at hrun1
  rw [hparse] at hrun1
  dsimp only at hrun1
  split at hrun1
  · -- first run's fold succeeded
    rename_i stF hfold1
    injection hrun1 with hj1 hs1
    subst hj1
    subst hs1
    obtain ⟨-, -, -, -, -, hcnt1, -, hinvImp⟩ := foldRows_facts _ _ _ hfold1
    have hinvF : CacheInv stF := hinvImp
      ⟨fun e he => absurd he (List.not_mem_nil e),
       fun e he => absurd he (List.not_mem_nil e),
       fun e he => absurd he (List.not_mem_nil e)⟩
    have hcnt1' : stF.imported + stF.duplicates = 0 + 0 + rows.length := hcnt1
    have hdupF : stF.duplicates = 0 := hdup1
    simp only [runImport, DbSession.commit, DbSession.rollback] at hrun2
    rw [hfind] at hrun2
    dsimp only at hrun2
    rw [hparse] at hrun2
    dsimp only at hrun2
    split at hrun2
    · -- second run's fold succeeded: it counted only duplicates
      rename_i stF2 hfold2
      obtain ⟨st2F, hres, hdb2, himp2, hdup2⟩ := foldRows_sim rows _ _ _
        hfold1 hfold2 hinvF ⟨rfl, rfl, rfl, rfl⟩ hunamb rfl rfl rfl
      injection hres with hF2
      subst hF2
      injection hrun2 with hj2 hs2
      refine ⟨by rw [← hj2], ?_, ?_, ?_⟩
      · rw [← hj2]
        show stF2.imported = 0
        exact himp2
      · rw [← hj2]
        show stF2.duplicates = stF.imported
        have hdup2' : stF2.duplicates = 0 + rows.length := hdup2
        omega
      · rw [← hs2]
        show stF2.db.txns = stF.db.txns
        rw [hdb2]
        rfl
    · -- impossible: the simulation shows the second fold succeeds
      rename_i e hfold2
      obtain ⟨st2F, hres, -, -, -⟩ := foldRows_sim rows _ _ _
        hfold1 hfold2 hinvF ⟨rfl, rfl, rfl, rfl⟩ hunamb rfl rfl rfl
      cases hres
  · -- impossible: the first run's job would be FAILED
    rename_i e hfold1
    injection hrun1 with hj1 hs1
    rw [← hj1] at hcomp1
    exact ImportStatus.noConfusion hcomp1

/-- Witness for C2 (amended): re-importing the one-row file.  All
hypotheses hold concretely and the second run reports one duplicate, no
imports and an unchanged transaction table. -/
theorem reimport_idempotent_amended_witness :
    (runImport [constParser rowsSingle] singleRun1.2 7 "f.csv" "x").1.importedRows
      = 0 ∧
    (runImport [constParser rowsSingle] singleRun1.2 7
        "f.csv" "x").1.duplicateRows = singleRun1.1.importedRows ∧
    (runImport [constParser rowsSingle] singleRun1.2 7
        "f.csv" "x").2.committed.txns = singleRun1.2.committed.txns :=
  have key := reimport_idempotent_amended [constParser rowsSingle] emptyDB 7
    "f.csv" "x" (constParser rowsSingle) rowsSingle singleRun1.1 singleRun1.2
    (runImport [constParser rowsSingle] singleRun1.2 7 "f.csv" "x").1
    (runImport [constParser rowsSingle] singleRun1.2 7 "f.csv" "x").2
    rfl rfl rfl (by decide) (by decide)
    (by simp only [AcctUnambiguous]; decide) rfl
  ⟨key.2.1, key.2.2.1, key.2.2.2⟩

end FamilyFinance
